import Mathlib

/-!
Verification of the E4X XML object model (Shumway, `src/avm2/natives/xml.ts`).

This development shallowly embeds the XML data model and the algorithms of the
source file — escaping, namespace-prefix synthesis, serialization, normalize,
numeric property access, the streaming parser, string-to-XML coercion, the
XMLList single-item accessors, deep-copy and the parent/child invariant — as
executable Lean definitions, and proves (or refutes) the specified properties.

Modelling conventions:
* JS strings are modelled as Lean `String` (a JS string is a sequence of UTF-16
  code units; the difference is observable only through lone surrogates, which
  none of the settled claims depend on).
* JS `undefined`/`null` slots are modelled with `Option`.
* Object references and in-place mutation (needed for deep-copy independence,
  the parent/child invariant, and `contains`) are modelled by an explicit
  arena: a store of node records addressed by natural-number ids, exactly as
  suggested by the repository design notes ("replace pointer-based parent/child
  edges with an arena of nodes addressed by stable indices").
* JS exceptions are modelled with `Option`/`Except`.
* Loops whose termination is not structural take an explicit fuel argument;
  wrappers instantiate the fuel with a bound that suffices for the loop.
-/

namespace SXML

/-- Node kinds, from `enum ASXMLKind` (Element = 1 … ProcessingInstruction = 5;
the `Unknown = 0` member is never constructed and is omitted). -/
inductive XMLKind where
  | element
  | attribute
  | text
  | comment
  | processingInstruction
deriving DecidableEq, Repr

/-- A namespace: `{ uri, prefix }` where the prefix may be `undefined`
("unresolved"), modelled as `none`.  From `ASNamespace` / `Namespace.createNamespace`. -/
structure ASNamespace where
  pfx : Option String
  uri : String
deriving DecidableEq, Repr

/-- A qualified name as stored in `ASQName` (a `Multiname` with one namespace).
`ns = none` models a `null` namespace (`uri === null`, the ANY_NAMESPACE case);
otherwise `ns` carries the uri and the (possibly unresolved) prefix hint.
The ANY_NAME flag of the source is equivalent to `localName = "*"` because the
constructor sets it exactly then. -/
structure ASQName where
  ns : Option ASNamespace
  localName : String
  isAttribute : Bool
deriving DecidableEq, Repr

/-- `ASQName.uri`: `namespaces[0] ? namespaces[0].uri : null`. -/
def ASQName.uri (q : ASQName) : Option String :=
  q.ns.map ASNamespace.uri

/-- `ASQName.prefix`: `namespaces[0] ? namespaces[0].prefix : null`
(`none` here covers both the `null`-namespace case and an unresolved prefix;
the two are distinguished by `uri`). -/
def ASQName.pfx (q : ASQName) : Option String :=
  q.ns.bind ASNamespace.pfx

/-- E4X 11.5.1 step 3.b, `ASQName.equals`: uris equal and local names equal. -/
def ASQName.equalsQ (q other : ASQName) : Bool :=
  other.uri == q.uri && other.localName == q.localName

/-- The global settings block (`ASXML._flags`, `_prettyIndent`,
`defaultNamespace`), passed explicitly. -/
structure Settings where
  ignoreComments : Bool
  ignoreProcessingInstructions : Bool
  ignoreWhitespace : Bool
  prettyPrinting : Bool
  prettyIndent : Nat
  defaultNamespace : String
deriving Repr

/-- The defaults: `ASXML_FLAGS.ALL`, `prettyIndent = 2`, `defaultNamespace = ''`. -/
def defaultSettings : Settings :=
  { ignoreComments := true
    ignoreProcessingInstructions := true
    ignoreWhitespace := true
    prettyPrinting := true
    prettyIndent := 2
    defaultNamespace := "" }

/-! ### Escaping (10.2.1.1 / 10.2.1.2) -/

/-- The per-character replacement of the `switch` in `escapeElementValue`. -/
def escElemChar (c : Char) : String :=
  if c = '&' then "&amp;"
  else if c = '<' then "&lt;"
  else if c = '>' then "&gt;"
  else String.singleton c

/-- The per-character replacement of the `switch` in `escapeAttributeValue`. -/
def escAttrChar (c : Char) : String :=
  if c = '&' then "&amp;"
  else if c = '<' then "&lt;"
  else if c = '"' then "&quot;"
  else if c = '\n' then "&#xA;"
  else if c = '\r' then "&#xD;"
  else if c = '\t' then "&#x9;"
  else String.singleton c

/-- `escapeElementValue`: scan past the leading run of ordinary characters;
if the whole string is ordinary return it unchanged, otherwise append the
per-character escapes of the rest onto that prefix. -/
def escapeElementValue (s : String) : String :=
  let p : Char → Bool := fun c => !(c = '&' || c = '<' || c = '>')
  let pre := s.data.takeWhile p
  let rest := s.data.dropWhile p
  if rest.isEmpty then s
  else rest.foldl (fun buf c => buf ++ escElemChar c) pre.asString

/-- `escapeAttributeValue`: same structure with the six attribute specials. -/
def escapeAttributeValue (s : String) : String :=
  let p : Char → Bool := fun c =>
    !(c = '&' || c = '<' || c = '"' || c = '\n' || c = '\r' || c = '\t')
  let pre := s.data.takeWhile p
  let rest := s.data.dropWhile p
  if rest.isEmpty then s
  else rest.foldl (fun buf c => buf ++ escAttrChar c) pre.asString

/-- The specification-side description of both escape functions: replace every
character independently, leave all others unchanged. -/
def escapeBySpec (f : Char → String) (s : String) : String :=
  (s.data.map f).foldr (· ++ ·) ""

theorem mem_takeWhile_sat (p : Char → Bool) (l : List Char) :
    ∀ c ∈ l.takeWhile p, p c = true := by
  induction l with
  | nil => intro c hc; simp [List.takeWhile] at hc
  | cons a l ih =>
      intro c hc
      simp only [List.takeWhile] at hc
      cases hpa : p a with
      | false => rw [hpa] at hc; simp at hc
      | true =>
          rw [hpa] at hc
          rcases List.mem_cons.mp hc with h | h
          · rwa [h]
          · exact ih c h

theorem foldl_escape_eq (f : Char → String) (l : List Char) (init : String) :
    l.foldl (fun buf c => buf ++ f c) init = init ++ (l.map f).foldr (· ++ ·) "" := by
  induction l generalizing init with
  | nil => simp
  | cons c l ih =>
      simp only [List.foldl_cons, List.map_cons, List.foldr_cons, ih,
        String.append_assoc]

theorem foldr_singleton_append (f : Char → String) (l : List Char) (X : String)
    (h : ∀ c ∈ l, f c = String.singleton c) :
    (l.map f).foldr (· ++ ·) X = l.asString ++ X := by
  induction l with
  | nil =>
      apply String.ext
      simp [List.asString]
  | cons c l ih =>
      simp only [List.map_cons, List.foldr_cons]
      rw [h c (by simp), ih (fun c hc => h c (by simp [hc]))]
      apply String.ext
      simp [String.singleton, List.asString]

theorem escape_generic (p : Char → Bool) (f : Char → String) (s : String)
    (hp : ∀ c, p c = true → f c = String.singleton c) :
    (if (s.data.dropWhile p).isEmpty then s
     else (s.data.dropWhile p).foldl (fun buf c => buf ++ f c)
       (s.data.takeWhile p).asString) = escapeBySpec f s := by
  simp only [escapeBySpec]
  have hpre : ∀ c ∈ s.data.takeWhile p, f c = String.singleton c :=
    fun c hc => hp c (mem_takeWhile_sat p s.data c hc)
  by_cases hempty : (s.data.dropWhile p).isEmpty
  · simp only [hempty, if_true]
    have hall : s.data.takeWhile p = s.data := by
      have := List.takeWhile_append_dropWhile (p := p) (l := s.data)
      rw [List.isEmpty_iff.mp hempty, List.append_nil] at this
      exact this
    have hs : ∀ c ∈ s.data, f c = String.singleton c := by
      intro c hc
      exact hpre c (by rwa [hall])
    rw [foldr_singleton_append f s.data "" hs]
    apply String.ext
    simp [List.asString]
  · simp only [hempty, if_false]
    rw [foldl_escape_eq]
    conv_rhs => rw [show s.data = s.data.takeWhile p ++ s.data.dropWhile p from
      (List.takeWhile_append_dropWhile (p := p) (l := s.data)).symm]
    rw [List.map_append, List.foldr_append, foldr_singleton_append f _ _ hpre]
    simp

/-- Claim C9: `escapeElementValue` replaces exactly `&`, `<`, `>` by `&amp;`,
`&lt;`, `&gt;` and leaves every other character unchanged, and
`escapeAttributeValue` replaces exactly `&`, `<`, `"`, newline, carriage
return and tab by `&amp;`, `&lt;`, `&quot;`, `&#xA;`, `&#xD;`, `&#x9;` and
leaves every other character unchanged (each function equals the
character-by-character replacement map); moreover the two concrete examples
evaluate as stated. -/
theorem C9_escape_functions :
    (∀ s : String, escapeElementValue s = escapeBySpec escElemChar s) ∧
    (∀ s : String, escapeAttributeValue s = escapeBySpec escAttrChar s) ∧
    escapeElementValue "a<b>c&d" = "a&lt;b&gt;c&amp;d" ∧
    escapeAttributeValue "a\"b\nc" = "a&quot;b&#xA;c" := by
  refine ⟨?_, ?_, by rfl, by rfl⟩
  · intro s
    have h := escape_generic (fun c => !(c = '&' || c = '<' || c = '>'))
      escElemChar s ?_
    · exact h
    · intro c hc
      simp only [Bool.not_eq_true', Bool.or_eq_false_iff,
        decide_eq_false_iff_not] at hc
      simp [escElemChar, hc.1.1, hc.1.2, hc.2]
  · intro s
    have h := escape_generic
      (fun c => !(c = '&' || c = '<' || c = '"' || c = '\n' || c = '\r' || c = '\t'))
      escAttrChar s ?_
    · exact h
    · intro c hc
      simp only [Bool.not_eq_true', Bool.or_eq_false_iff,
        decide_eq_false_iff_not] at hc
      simp [escAttrChar, hc.1.1.1.1.1, hc.1.1.1.1.2, hc.1.1.1.2, hc.1.1.2,
        hc.1.2, hc.2]

/-! ### Decimal string representation is injective (needed for prefix synthesis) -/

/-- Specification of `Nat.repr`: most-significant-first decimal digits. -/
def decDigits (n : Nat) : List Char :=
  if h : n < 10 then [Nat.digitChar n]
  else decDigits (n / 10) ++ [Nat.digitChar (n % 10)]
decreasing_by exact Nat.div_lt_self (by omega) (by norm_num)

theorem decDigits_lt {n : Nat} (h : n < 10) : decDigits n = [Nat.digitChar n] := by
  rw [decDigits]
  exact dif_pos h

theorem decDigits_ge {n : Nat} (h : ¬ n < 10) :
    decDigits n = decDigits (n / 10) ++ [Nat.digitChar (n % 10)] := by
  conv_lhs => rw [decDigits]
  exact dif_neg h

theorem toDigitsCore_eq_decDigits (n : Nat) :
    ∀ fuel acc, n < fuel → Nat.toDigitsCore 10 fuel n acc = decDigits n ++ acc := by
  induction n using Nat.strong_induction_on with
  | _ n ih =>
      intro fuel acc hfuel
      match fuel with
      | 0 => omega
      | fuel + 1 =>
          rw [Nat.toDigitsCore]
          by_cases h10 : n < 10
          · have hz : n / 10 = 0 := Nat.div_eq_of_lt h10
            simp only [hz, if_pos rfl]
            rw [decDigits_lt h10, Nat.mod_eq_of_lt h10]
            rfl
          · have hne : ¬ n / 10 = 0 := by omega
            simp only [if_neg hne]
            have hlt : n / 10 < n := Nat.div_lt_self (by omega) (by norm_num)
            rw [ih (n / 10) hlt fuel (Nat.digitChar (n % 10) :: acc) (by omega)]
            rw [decDigits_ge h10]
            simp

theorem decDigits_ne_nil (n : Nat) : decDigits n ≠ [] := by
  by_cases h : n < 10
  · rw [decDigits_lt h]
    simp
  · rw [decDigits_ge h]
    simp

theorem digitChar_inj_lt10 :
    ∀ a < 10, ∀ b < 10, Nat.digitChar a = Nat.digitChar b → a = b := by decide

theorem decDigits_inj (m : Nat) : ∀ n, decDigits m = decDigits n → m = n := by
  induction m using Nat.strong_induction_on with
  | _ m ih =>
      intro n h
      by_cases hm : m < 10 <;> by_cases hn : n < 10
      · rw [decDigits_lt hm, decDigits_lt hn] at h
        have h1 : Nat.digitChar m = Nat.digitChar n := by injection h
        exact digitChar_inj_lt10 m hm n hn h1
      · rw [decDigits_lt hm, decDigits_ge hn] at h
        have hlen := congrArg List.length h
        simp only [List.length_singleton, List.length_append] at hlen
        have : decDigits (n / 10) = [] := List.length_eq_zero.mp (by omega)
        exact absurd this (decDigits_ne_nil (n / 10))
      · rw [decDigits_ge hm, decDigits_lt hn] at h
        have hlen := congrArg List.length h
        simp only [List.length_singleton, List.length_append] at hlen
        have : decDigits (m / 10) = [] := List.length_eq_zero.mp (by omega)
        exact absurd this (decDigits_ne_nil (m / 10))
      · rw [decDigits_ge hm, decDigits_ge hn] at h
        have hsufl : [Nat.digitChar (m % 10)].length = [Nat.digitChar (n % 10)].length := by
          simp
        obtain ⟨h1, h2⟩ := List.append_inj' h hsufl
        have hdiv : m / 10 = n / 10 :=
          ih (m / 10) (Nat.div_lt_self (by omega) (by norm_num)) (n / 10) h1
        have hdc : Nat.digitChar (m % 10) = Nat.digitChar (n % 10) := by injection h2
        have hmod : m % 10 = n % 10 :=
          digitChar_inj_lt10 (m % 10) (Nat.mod_lt m (by norm_num)) (n % 10)
            (Nat.mod_lt n (by norm_num)) hdc
        omega

theorem natRepr_inj {m n : Nat} (h : Nat.repr m = Nat.repr n) : m = n := by
  apply decDigits_inj
  have hm := toDigitsCore_eq_decDigits m (m + 1) [] (Nat.lt_succ_self m)
  have hn := toDigitsCore_eq_decDigits n (n + 1) [] (Nat.lt_succ_self n)
  simp only [List.append_nil] at hm hn
  unfold Nat.repr Nat.toDigits at h
  rw [hm, hn] at h
  have : (decDigits m).asString.data = (decDigits n).asString.data := by rw [h]
  simpa [List.asString] using this

theorem ns_repr_inj {m n : Nat} (h : "_ns" ++ Nat.repr m = "_ns" ++ Nat.repr n) :
    m = n := by
  apply natRepr_inj
  have : ("_ns" ++ Nat.repr m).data = ("_ns" ++ Nat.repr n).data := by rw [h]
  simp only [String.data_append] at this
  exact String.ext (List.append_cancel_left this)

/-! ### `generateUniquePrefix` (namespace-prefix synthesis) -/

/-- The loop condition of `generateUniquePrefix`:
`namespaces.some(ns => ns.prefix == newPrefix)` (JS `==` between a
string-or-undefined prefix and the candidate string). -/
def nsPrefixTaken (namespaces : List ASNamespace) (candidate : String) : Bool :=
  namespaces.any (fun ns => ns.pfx == some candidate)

/-- The `while (true)` loop of `generateUniquePrefix`, with explicit fuel.
(The source loop is unbounded; `generateUniquePrefix` below instantiates the
fuel with `length + 1`, which is enough by the pigeonhole principle, so the
fuel-exhaustion branch is unreachable.) -/
def generateUniquePrefixAux (namespaces : List ASNamespace) : Nat → Nat → String
  | 0, i => "_ns" ++ Nat.repr i
  | fuel + 1, i =>
      let newPrefix := "_ns" ++ Nat.repr i
      if nsPrefixTaken namespaces newPrefix then
        generateUniquePrefixAux namespaces fuel (i + 1)
      else newPrefix

/-- `generateUniquePrefix(namespaces)`: candidates `_ns1`, `_ns2`, … until one
is not the prefix of any namespace in the list. -/
def generateUniquePrefix (namespaces : List ASNamespace) : String :=
  generateUniquePrefixAux namespaces (namespaces.length + 1) 1

theorem generateUniquePrefixAux_spec (nss : List ASNamespace) :
    ∀ (fuel i : Nat),
      (∃ j, i ≤ j ∧ j < i + fuel ∧ nsPrefixTaken nss ("_ns" ++ Nat.repr j) = false) →
      ∃ N, generateUniquePrefixAux nss fuel i = "_ns" ++ Nat.repr N ∧ i ≤ N ∧
        nsPrefixTaken nss ("_ns" ++ Nat.repr N) = false ∧
        ∀ m, i ≤ m → m < N → nsPrefixTaken nss ("_ns" ++ Nat.repr m) = true := by
  intro fuel
  induction fuel with
  | zero =>
      intro i ⟨j, hij, hj, _⟩
      omega
  | succ fuel ih =>
      intro i hfree
      rw [generateUniquePrefixAux]
      by_cases htaken : nsPrefixTaken nss ("_ns" ++ Nat.repr i) = true
      · simp only [htaken, if_true]
        obtain ⟨j, hij, hj, hfj⟩ := hfree
        have hji : j ≠ i := by
          intro h
          rw [h, htaken] at hfj
          cases hfj
        obtain ⟨N, hN, hiN, hfN, hmin⟩ := ih (i + 1) ⟨j, by omega, by omega, hfj⟩
        refine ⟨N, hN, by omega, hfN, ?_⟩
        intro m him hmN
        by_cases hmi : m = i
        · rwa [hmi]
        · exact hmin m (by omega) hmN
      · simp only [htaken, if_false]
        refine ⟨i, rfl, le_refl i, by simpa using htaken, ?_⟩
        intro m him hmi
        omega

theorem exists_free_prefix (nss : List ASNamespace) :
    ∃ j, 1 ≤ j ∧ j < 1 + (nss.length + 1) ∧
      nsPrefixTaken nss ("_ns" ++ Nat.repr j) = false := by
  by_contra hcon
  push_neg at hcon
  have htaken : ∀ j ∈ Finset.Icc 1 (nss.length + 1),
      ∃ k : Fin nss.length, (nss.get k).pfx = some ("_ns" ++ Nat.repr j) := by
    intro j hj
    simp only [Finset.mem_Icc] at hj
    have hne := hcon j hj.1 (by omega)
    rw [Bool.ne_false_iff] at hne
    obtain ⟨ns, hmem, heq⟩ := List.any_eq_true.mp hne
    obtain ⟨k, hk⟩ := List.mem_iff_get.mp hmem
    exact ⟨k, by rw [hk]; exact eq_of_beq heq⟩
  classical
  choose f hf using htaken
  let g : ℕ → ℕ := fun j =>
    if hj : j ∈ Finset.Icc 1 (nss.length + 1) then (f j hj).val else 0
  have hmaps : ∀ j ∈ Finset.Icc 1 (nss.length + 1), g j ∈ Finset.range nss.length := by
    intro j hj
    simp only [g, dif_pos hj]
    exact Finset.mem_range.mpr (f j hj).isLt
  have hcard : (Finset.range nss.length).card <
      (Finset.Icc 1 (nss.length + 1)).card := by
    rw [Finset.card_range, Nat.card_Icc]
    omega
  obtain ⟨a, ha, b, hb, hab, heq⟩ :=
    Finset.exists_ne_map_eq_of_card_lt_of_maps_to hcard hmaps
  have hga : g a = (f a ha).val := by simp only [g, dif_pos ha]
  have hgb : g b = (f b hb).val := by simp only [g, dif_pos hb]
  have hfk : f a ha = f b hb := Fin.ext (by rw [← hga, ← hgb, heq])
  have hpa := hf a ha
  have hpb := hf b hb
  rw [hfk] at hpa
  rw [hpa] at hpb
  exact hab (ns_repr_inj (Option.some.inj hpb))

/-- Claim C7: the prefix synthesized by `generateUniquePrefix` for the
currently visible namespaces (in `toXMLString` the argument is the ancestor
namespaces plus the declarations made so far) is `"_ns" ++ N` for the
smallest `N ≥ 1` such that `"_nsN"` is not the prefix of any namespace in
that list; consequently the synthesized prefix never equals the prefix of
any currently visible namespace. -/
theorem C7_generateUniquePrefix (nss : List ASNamespace) :
    ∃ N : Nat, generateUniquePrefix nss = "_ns" ++ Nat.repr N ∧ 1 ≤ N ∧
      nsPrefixTaken nss ("_ns" ++ Nat.repr N) = false ∧
      (∀ m, 1 ≤ m → m < N → nsPrefixTaken nss ("_ns" ++ Nat.repr m) = true) ∧
      ∀ ns ∈ nss, ns.pfx ≠ some (generateUniquePrefix nss) := by
  obtain ⟨j, h1, h2, h3⟩ := exists_free_prefix nss
  obtain ⟨N, hN, h1N, hfN, hmin⟩ :=
    generateUniquePrefixAux_spec nss (nss.length + 1) 1 ⟨j, h1, h2, h3⟩
  refine ⟨N, hN, h1N, hfN, hmin, ?_⟩
  intro ns hmem heq
  have htk : nsPrefixTaken nss ("_ns" ++ Nat.repr N) = true := by
    apply List.any_eq_true.mpr
    refine ⟨ns, hmem, ?_⟩
    rw [heq]
    unfold generateUniquePrefix
    rw [hN]
    exact beq_self_eq_true _
  rw [hfN] at htk
  exact Bool.false_ne_true htk

/-! ### The XML node tree (pure view)

`ASXML` nodes carry `_kind`, `_name` (possibly `undefined`), `_value`,
`_inScopeNamespaces`, `_attributes` and `_children` (attributes are themselves
`ASXML` nodes of kind Attribute).  The parent back-reference is not part of the
pure value; it is modelled separately in the arena embedding below. -/
inductive XML where
  | mk (kind : XMLKind) (name? : Option ASQName) (value : String)
       (nss : List ASNamespace) (attrs : List XML) (children : List XML)

def XML.kind : XML → XMLKind
  | .mk k _ _ _ _ _ => k

def XML.name? : XML → Option ASQName
  | .mk _ n _ _ _ _ => n

def XML.value : XML → String
  | .mk _ _ v _ _ _ => v

def XML.nss : XML → List ASNamespace
  | .mk _ _ _ ns _ _ => ns

def XML.attrs : XML → List XML
  | .mk _ _ _ _ a _ => a

def XML.children : XML → List XML
  | .mk _ _ _ _ _ c => c

def XML.withChildren : XML → List XML → XML
  | .mk k n v ns a _, c => .mk k n v ns a c

def XML.withValue : XML → String → XML
  | .mk k n _ ns a c, v => .mk k n v ns a c

/-- A text node as built by the parser (`createNode(Text, "", "")` followed by
`init`: the name is the empty local name in the default `""` namespace). -/
def textNode (v : String) : XML :=
  .mk .text (some ⟨some ⟨some "", ""⟩, "", false⟩) v [] [] []

/-- An element with no namespace, as built by `createNode(Element, '', name, '')`. -/
def elemNode (name : String) (attrs children : List XML) : XML :=
  .mk .element (some ⟨some ⟨some "", ""⟩, name, false⟩) "" [] attrs children

/-! ### Numeric property access (9.1.1.1 `XML.[[Get]]`, step 1) -/

/-- The numeric fast path of `ASXML.getProperty`: for an index-valued property
name `mn`, `if ((mn|0) === 0) return this; return null;`.  `mn|0` is the JS
ToInt32 conversion, so for a natural-number index the test is
`i mod 2^32 = 0`. -/
def getPropertyNumeric (x : XML) (i : Nat) : Option XML :=
  if i % 4294967296 = 0 then some x else none

/-- Claim C4: numeric property access on an XML node returns the node itself
at index 0 and an empty result (`null`) at every other index — it never
indexes into the node's children.  (Stated for indices in the JS array-index
range `i < 2^32`; the source applies ToInt32 to the property name.) -/
theorem C4_numeric_get (x : XML) (i : Nat) (hi : i < 4294967296) :
    (getPropertyNumeric x i = some x ↔ i = 0) ∧
    (i ≠ 0 → getPropertyNumeric x i = none) ∧
    (getPropertyNumeric x i = some x ∨ getPropertyNumeric x i = none) := by
  have hmod : i % 4294967296 = i := Nat.mod_eq_of_lt hi
  refine ⟨⟨?_, ?_⟩, ?_, ?_⟩
  · intro h
    by_contra hne
    rw [getPropertyNumeric, hmod, if_neg hne] at h
    cases h
  · intro h
    rw [getPropertyNumeric, hmod, if_pos h]
  · intro h
    rw [getPropertyNumeric, hmod, if_neg h]
  · rw [getPropertyNumeric]
    by_cases h : i % 4294967296 = 0
    · rw [if_pos h]
      exact Or.inl rfl
    · rw [if_neg h]
      exact Or.inr rfl

/-- Witness for C4 at a concrete node and index. -/
theorem C4_numeric_get_witness :
    getPropertyNumeric (textNode "hi") 7 = none :=
  (C4_numeric_get (textNode "hi") 7 (by norm_num)).2.1 (by norm_num)

/-! ### `normalize` (13.4.4.26 / `ASXML.normalize`) -/

/-- `removeByIndex`: reads `children[index]`, sets its parent to `null`, then
splices it out.  When `index` is out of range, `children[index]` is
`undefined` and the parent assignment throws a TypeError; this is modelled by
`none`. -/
def removeByIndexP (cs : List XML) (i : Nat) : Option (List XML) :=
  if i < cs.length then some (cs.eraseIdx i) else none

/-- The inner merge loop of `normalize` (comment "Step 2.b.i."): while the
child at (fixed) position `i` is a Text node, append its value and splice it
out. -/
def normMerge : Nat → List XML → Nat → String → (List XML × String)
  | 0, cs, _, v => (cs, v)
  | fuel + 1, cs, i, v =>
      match cs.get? i with
      | some c =>
          if c.kind = .text then normMerge fuel (cs.eraseIdx i) i (v ++ c.value)
          else (cs, v)
      | none => (cs, v)

mutual

/-- The outer loop of `ASXML.normalize` over the mutable child list, starting
at index `i`.  Note that after merging a Text run the source has already
advanced `i` past the merged node, so the "Step 2.b.ii." `removeByIndex(i)`
for an empty merged value targets the position after the Text node, and the
"Step 2.b.iii." `i++` skips an additional position. -/
def normalizeLoop : Nat → List XML → Nat → Option (List XML)
  | 0, _, _ => none
  | fuel + 1, cs, i =>
      match cs.get? i with
      | none => some cs
      | some child =>
          match child.kind with
          | .element =>
              match normalizeNode fuel child with
              | some child' => normalizeLoop fuel (cs.set i child') (i + 1)
              | none => none
          | .text =>
              let m := normMerge fuel cs (i + 1) child.value
              let cs1 := m.1.set i (child.withValue m.2)
              if m.2.length = 0 then
                match removeByIndexP cs1 (i + 1) with
                | some cs2 => normalizeLoop fuel cs2 (i + 1)
                | none => none
              else normalizeLoop fuel cs1 (i + 2)
          | _ => normalizeLoop fuel cs (i + 1)

/-- `ASXML.normalize` on a node: iterate over `this._children`.  On a
non-Element node `this._children` is `undefined` and the loop header throws;
modelled by `none`. -/
def normalizeNode : Nat → XML → Option XML
  | 0, _ => none
  | fuel + 1, x =>
      if x.kind = .element then
        (normalizeLoop fuel x.children 0).map x.withChildren
      else none

end

mutual

/-- Number of nodes of a tree (used only to pick a sufficient fuel). -/
def xmlSize : XML → Nat
  | .mk _ _ _ _ a c => 1 + xmlSizeList a + xmlSizeList c

def xmlSizeList : List XML → Nat
  | [] => 0
  | x :: xs => xmlSize x + xmlSizeList xs

end

/-- `normalize()` with enough fuel for the tree (the source loops are bounded
by the tree size; any sufficient fuel gives the same result). -/
def normalize (x : XML) : Option XML :=
  normalizeNode (2 * xmlSize x + 4) x

/-- Whether some direct child is an empty Text node. -/
def hasEmptyTextChild (x : XML) : Bool :=
  x.children.any (fun c => c.kind = .text && c.value = "")

/-! ### Errors -/

/-- The typed failures signalled by the embedded operations.  `typeError`
covers JS TypeErrors from accessing a member of `undefined`; `parseError`
covers the parser's thrown strings. -/
inductive Err where
  | namespaceWithPrefixAndNoURI
  | typeError
  | markupMustBeWellFormed
  | parseError (msg : String)
  | singleItemListRequired (op : String)
  | assignmentToIndexedXMLNotAllowed
  | assignmentOneItemLists
  | callOfNonFunction
deriving DecidableEq, Repr

/-- The 2-argument `ASNamespace` constructor (13.2.2) restricted to a
string-or-undefined prefix argument and a string uri (the only shapes the
embedded call sites produce): empty uri requires an empty/undefined prefix
(else `XMLNamespaceWithPrefixAndNoURI`); with a nonempty uri an undefined
prefix stays undefined and a string prefix is kept (`isXMLName` is `true` for
every string in the source). -/
def newASNamespace2 (prefixValue : Option String) (uriValue : String) :
    Except Err ASNamespace :=
  if uriValue = "" then
    match prefixValue with
    | none => .ok ⟨some "", ""⟩
    | some p =>
        if p = "" then .ok ⟨some "", ""⟩
        else .error .namespaceWithPrefixAndNoURI
  else .ok ⟨prefixValue, uriValue⟩

/-- 13.3.5.4 `[[GetNamespace]]`: return the last namespace of the in-scope set
with a matching uri, else a fresh namespace from the QName's own prefix and
uri; throws on a `null` uri. -/
def ASQName.getNamespace (q : ASQName) (inScope : List ASNamespace) :
    Except Err ASNamespace :=
  match q.ns with
  | none => .error .typeError
  | some qns =>
      match (inScope.filter (fun ns => ns.uri = qns.uri)).getLast? with
      | some ns => .ok ns
      | none => newASNamespace2 qns.pfx qns.uri

/-! ### Serialization (10.2 ToXMLString) -/

def isWSChar (c : Char) : Bool :=
  c = ' ' || c = '\n' || c = '\r' || c = '\t'

/-- `trimWhitespaces`: strip leading and trailing space/newline/CR/tab. -/
def trimWhitespaces (s : String) : String :=
  let l := s.data.dropWhile isWSChar
  ((l.reverse.dropWhile isWSChar).reverse).asString

/-- `getIndentString`: `indent` spaces. -/
def getIndentString (indent : Nat) : String :=
  (List.replicate indent ' ').asString

/-- Step 10 of 10.2.1: collect the in-scope declarations not already declared
by an ancestor (matched by uri *and* prefix), rebuilding each as a fresh
namespace (which can throw for a declared prefix with empty uri). -/
def collectDecls (ancestors : List ASNamespace) :
    List ASNamespace → Except Err (List ASNamespace)
  | [] => .ok []
  | ns :: rest =>
      if ancestors.all (fun ans => !(ans.uri = ns.uri && ans.pfx = ns.pfx)) then do
        let n1 ← newASNamespace2 ns.pfx ns.uri
        let r ← collectDecls ancestors rest
        .ok (n1 :: r)
      else collectDecls ancestors rest

/-- Step 11, attribute half: for each attribute whose name resolves to a
namespace with an unresolved prefix, synthesize a `_nsN` prefix and add the
declaration; threads the declaration and currently-visible lists. -/
def synthAttrPrefixes :
    List XML → List ASNamespace → List ASNamespace →
    Except Err (List ASNamespace × List ASNamespace)
  | [], decls, cur => .ok (decls, cur)
  | a :: rest, decls, cur => do
      match a.name? with
      | none => .error .typeError
      | some n => do
          let ns ← n.getNamespace cur
          match ns.pfx with
          | none => do
              let newP := generateUniquePrefix cur
              let ns2 ← newASNamespace2 (some newP) ns.uri
              synthAttrPrefixes rest (decls ++ [ns2]) (cur ++ [ns2])
          | some _ => synthAttrPrefixes rest decls cur

/-- Emit `xmlns`/`xmlns:p` declaration attributes (an undefined or empty
prefix both print as plain `xmlns`, matching JS truthiness). -/
def emitDecls : List ASNamespace → String
  | [] => ""
  | ns :: rest =>
      let attributeName :=
        match ns.pfx with
        | some p => if p ≠ "" then "xmlns:" ++ p else "xmlns"
        | none => "xmlns"
      " " ++ attributeName ++ "=\"" ++ escapeAttributeValue ns.uri ++ "\"" ++
        emitDecls rest

/-- Emit the content attributes; each name is resolved against the *ancestor*
namespaces only (as in the source's second attribute pass). -/
def emitAttrs (ancestors : List ASNamespace) : List XML → Except Err String
  | [] => .ok ""
  | a :: rest => do
      match a.name? with
      | none => .error .typeError
      | some n => do
          let ns ← n.getNamespace ancestors
          let attributeName :=
            match ns.pfx with
            | some p => if p ≠ "" then p ++ ":" ++ n.localName else n.localName
            | none => n.localName
          let r ← emitAttrs ancestors rest
          .ok (" " ++ attributeName ++ "=\"" ++ escapeAttributeValue a.value ++
            "\"" ++ r)

mutual

/-- 10.2.1 ToXMLString applied to one node.  Note the faithful quirk: when the
element's own namespace has an unresolved prefix the source synthesizes and
*declares* a fresh `_nsN` namespace but does not update the local `namespace`
variable, so the element name itself is emitted without a prefix. -/
def toXMLStringX (st : Settings) : XML → List ASNamespace → Nat → Except Err String
  | .mk kind name? value nss attrs children, ancestors, indentLevel =>
      let s := if st.prettyPrinting then getIndentString indentLevel else ""
      match kind with
      | .text =>
          .ok (if st.prettyPrinting then s ++ escapeElementValue (trimWhitespaces value)
               else escapeElementValue value)
      | .attribute => .ok (s ++ escapeAttributeValue value)
      | .comment => .ok (s ++ "<!--" ++ value ++ "-->")
      | .processingInstruction =>
          match name? with
          | some n => .ok (s ++ "<?" ++ n.localName ++ " " ++ value ++ "?>")
          | none => .error .typeError
      | .element => do
          let decls0 ← collectDecls ancestors nss
          let cur0 := ancestors ++ decls0
          match name? with
          | none => .error .typeError
          | some nm => do
              let namesp ← nm.getNamespace cur0
              let dc1 ←
                match namesp.pfx with
                | none => do
                    let newP := generateUniquePrefix cur0
                    let ns2 ← newASNamespace2 (some newP) namesp.uri
                    pure (decls0 ++ [ns2], cur0 ++ [ns2])
                | some _ => pure (decls0, cur0)
              let elementName :=
                (match namesp.pfx with
                 | some p => if p ≠ "" then p ++ ":" else ""
                 | none => "") ++ nm.localName
              let dc2 ← synthAttrPrefixes attrs dc1.1 dc1.2
              let sAttrs ← emitAttrs ancestors attrs
              let sOpen := s ++ "<" ++ elementName ++ emitDecls dc2.1 ++ sAttrs
              if children.length = 0 then .ok (sOpen ++ "/>")
              else do
                let indentChildren : Bool := children.length > 1 ||
                  (children.length = 1 &&
                    (match children with
                     | c0 :: _ => decide (c0.kind ≠ XMLKind.text)
                     | [] => false))
                let nextIndentLevel :=
                  if st.prettyPrinting && indentChildren then
                    indentLevel + st.prettyIndent
                  else 0
                let pre := if st.prettyPrinting && indentChildren then "\n" else ""
                let sc ← toXMLStringListX st children dc2.2 nextIndentLevel pre
                let tail :=
                  if st.prettyPrinting && indentChildren then
                    "\n" ++ getIndentString indentLevel
                  else ""
                .ok (sOpen ++ ">" ++ sc ++ tail ++ "</" ++ elementName ++ ">")

/-- The `forEach` over children: each child contributes its (optional) newline
prefix and its serialization. -/
def toXMLStringListX (st : Settings) :
    List XML → List ASNamespace → Nat → String → Except Err String
  | [], _, _, _ => .ok ""
  | c :: cs, cur, lvl, pre => do
      let s1 ← toXMLStringX st c cur lvl
      let s2 ← toXMLStringListX st cs cur lvl pre
      .ok (pre ++ s1 ++ s2)

end

/-- `toXMLString(node)` — entry point: no ancestor namespaces, indent 0. -/
def toXMLString (st : Settings) (x : XML) : Except Err String :=
  toXMLStringX st x [] 0

/-- 13.4.4.16 `hasSimpleContent`: false for Comment/PI, true for any other
non-Element, and for an Element true iff no child is an Element. -/
def hasSimpleContent (x : XML) : Bool :=
  match x.kind with
  | .comment | .processingInstruction => false
  | .element => x.children.all (fun c => c.kind ≠ XMLKind.element)
  | _ => true

/-- 13.4.4.15 `hasComplexContent`: true only for an Element with at least one
Element child. -/
def hasComplexContent (x : XML) : Bool :=
  match x.kind with
  | .element => x.children.any (fun c => c.kind = XMLKind.element)
  | _ => false

mutual

/-- 10.1 ToString on an XML node: Text/Attribute yield the value; a node with
simple content concatenates its non-Comment/PI children's strings; otherwise
ToXMLString. -/
def toStringX (st : Settings) : XML → Except Err String
  | .mk kind name? value nss attrs children =>
      match kind with
      | .text | .attribute => .ok value
      | _ =>
          if hasSimpleContent (.mk kind name? value nss attrs children) then
            toStringListX st children
          else toXMLStringX st (.mk kind name? value nss attrs children) [] 0

def toStringListX (st : Settings) : List XML → Except Err String
  | [] => .ok ""
  | c :: cs =>
      if c.kind = .comment || c.kind = .processingInstruction then
        toStringListX st cs
      else do
        let s ← toStringX st c
        let r ← toStringListX st cs
        .ok (s ++ r)

end

/-- The root-name comparison of 9.1.1.9 steps 3–4:
`!!this._name !== !!other._name || (this._name && !this._name.equals(other._name))`. -/
def namesMatch : Option ASQName → Option ASQName → Bool
  | none, none => true
  | some an, some bn => an.equalsQ bn
  | _, _ => false

/-- The inner scan of 9.1.1.9 step 8: find an attribute of `others` with equal
name and value.  Reading `._name.equals` on an unnamed attribute of `others`
is a JS TypeError. -/
def attrFindMatch (att : XML) : List XML → Except Err Bool
  | [] => .ok false
  | o :: os =>
      match o.name? with
      | none => .error .typeError
      | some onm =>
          let nameEq :=
            match att.name? with
            | none => false
            | some anm => onm.equalsQ anm
          if nameEq && o.value == att.value then .ok true
          else attrFindMatch att os

/-- The attribute-set half of 9.1.1.9 step 8: every attribute of the first
list has a (name, value) match among the second. -/
def attrsAllMatch : List XML → List XML → Except Err Bool
  | [], _ => .ok true
  | a :: as', others => do
      let m ← attrFindMatch a others
      if m then attrsAllMatch as' others else .ok false

mutual

/-- E4X 11.5.1 (abstract equality) steps 3–4 restricted to XML·XML, i.e.
`ASXML.equals`: compare via ToString when one side is Text/Attribute and the
other has simple content, else deep equality. -/
def xmlEquals (st : Settings) : XML → XML → Except Err Bool
  | a, b =>
      if ((a.kind = .text || a.kind = .attribute) && hasSimpleContent b) ||
         ((b.kind = .text || b.kind = .attribute) && hasSimpleContent a) then do
        let sa ← toStringX st a
        let sb ← toStringX st b
        .ok (sa == sb)
      else deepEqualsX st a b
termination_by a b => (sizeOf a, 1)

/-- 9.1.1.9 `[[Equals]]`: same kind, matching root names; value equality for
non-Elements; for Elements equal attribute/child counts, attributes matched
as sets by (name, value), children pairwise by `equals`. -/
def deepEqualsX (st : Settings) : XML → XML → Except Err Bool
  | .mk ak an av anss aattrs achildren, b =>
      let a : XML := .mk ak an av anss aattrs achildren
      if ak ≠ b.kind then .ok false
      else if ¬ namesMatch an b.name? then .ok false
      else if ak ≠ .element then .ok (av == b.value)
      else if aattrs.length ≠ b.attrs.length then .ok false
      else if achildren.length ≠ b.children.length then .ok false
      else do
        let am ← attrsAllMatch aattrs b.attrs
        if ¬ am then .ok false
        else childrenEqualsX st achildren b.children
termination_by a b => (sizeOf a, 0)

def childrenEqualsX (st : Settings) : List XML → List XML → Except Err Bool
  | [], _ => .ok true
  | _ :: _, [] => .ok false
  | c :: cs, d :: ds => do
      let e ← xmlEquals st c d
      if e then childrenEqualsX st cs ds else .ok false
termination_by cs ds => (sizeOf cs, 2)

end

/-! ### Node construction (`createXML` / `init` / the QName constructor) -/

/-- 12.1 `GetDefaultNamespace`: `new Namespace("", ASXML.defaultNamespace)`. -/
def getDefaultNamespace (st : Settings) : ASNamespace :=
  ⟨some "", st.defaultNamespace⟩

/-- The `ASQName` constructor for a string name and an optional namespace
argument (13.3.2 steps 4–8): an unspecified namespace defaults to `null` for
the name `"*"` and to the ambient default namespace otherwise. -/
def newASQName (st : Settings) (namespace? : Option ASNamespace) (name : String)
    (isAttribute : Bool) : ASQName :=
  match namespace? with
  | none =>
      if name = "*" then ⟨none, name, isAttribute⟩
      else ⟨some (getDefaultNamespace st), name, isAttribute⟩
  | some nsv => ⟨some nsv, name, isAttribute⟩

/-- `createXML`/`init`: build a node of the given kind.  The namespace for the
name is `new Namespace(prefix, uri)` when `uri || prefix` is truthy, else
undefined (so the QName constructor supplies the default namespace). -/
def createXMLNode (st : Settings) (kind : XMLKind) (uri name : String)
    (pfx? : Option String) : XML :=
  let namespaceArg : Option ASNamespace :=
    if uri ≠ "" ∨ (pfx?.getD "" ≠ "") then some ⟨pfx?, uri⟩ else none
  let q := newASQName st namespaceArg name (kind = .attribute)
  .mk kind (some q) "" [] [] []

/-! ### The streaming markup parser (`XMLParser.parseXml` / `parseFromString`)

The source builds the tree by calling `parent.insert(parent.length, child)`
at begin-element time and then mutating the child in place; the pure model
appends the finished child to its parent at end-element time, which yields
the same tree for every returned result (the returned node is either the
placeholder root, into which append order is identical, or an unfinished
element whose parent edge is unobservable). -/

/-- A raw parsed namespace binding `{uri, prefix}` as tracked by the parser
scopes. -/
structure PNS where
  uri : String
  pfx : String
deriving DecidableEq, Repr

/-- One parser scope: per-element namespace declarations, the prefix lookup
table (`lookup`, later assignments overriding — modelled by prepending), the
optional default-namespace (`'xmlns' in scope`) and `xml:space` entries, and
the computed set of in-scope namespaces. -/
structure PScope where
  namespaces : List PNS
  lookup : List (String × String)
  xmlns? : Option String
  space? : Option String
  inScopes : List PNS
deriving Repr

/-- The initial scope: fixed `xmlns`/`xml` bindings, the ambient default
namespace, `space = 'default'`. -/
def initialScope (st : Settings) : PScope :=
  { namespaces := []
    lookup := [("xmlns", "http://www.w3.org/2000/xmlns/"),
               ("xml", "http://www.w3.org/XML/1998/namespace")]
    xmlns? := some st.defaultNamespace
    space? := some "default"
    inScopes := if st.defaultNamespace = "" then [] else [⟨st.defaultNamespace, ""⟩] }

def lookupInScope (sc : PScope) (p : String) : Option String :=
  (sc.lookup.find? (fun e => e.1 = p)).map (fun e => e.2)

/-- `lookupNs`: innermost-first prefix lookup over the scope stack. -/
def lookupNs (scopes : List PScope) (p : String) : Option String :=
  match scopes with
  | [] => none
  | sc :: rest =>
      match lookupInScope sc p with
      | some uri => some uri
      | none => lookupNs rest p

/-- `lookupDefaultNs`: innermost scope that has an `xmlns` entry. -/
def lookupDefaultNs (scopes : List PScope) : String :=
  match scopes with
  | [] => ""
  | sc :: rest =>
      match sc.xmlns? with
      | some uri => uri
      | none => lookupDefaultNs rest

/-- `isWhitespacePreserved`: some scope has `xml:space="preserve"`. -/
def isWhitespacePreserved (scopes : List PScope) : Bool :=
  scopes.any (fun sc => sc.space? == some "preserve")

/-- A resolved tag or attribute name. -/
structure PName where
  localName : String
  pfx : String
  nsuri : String
deriving Repr

/-- `getName(name, resolveDefaultNs)`: split at the first `:`; a prefixed name
resolves through the scope stack (unknown prefix throws); an unprefixed name
takes the default namespace only when requested. -/
def getName (scopes : List PScope) (name : String) (resolveDefaultNs : Bool) :
    Except Err PName :=
  match name.data.findIdx? (fun c => c = ':') with
  | some j =>
      let pfx := (name.data.take j).asString
      let localName := (name.data.drop (j + 1)).asString
      match lookupNs scopes pfx with
      | none => .error (.parseError ("Unknown namespace: " ++ pfx))
      | some nsuri => .ok ⟨localName, pfx, nsuri⟩
  | none =>
      if resolveDefaultNs then .ok ⟨name, "", lookupDefaultNs scopes⟩
      else .ok ⟨name, "", ""⟩

/-! #### Entity resolution -/

def hexDigitVal (c : Char) : Option Nat :=
  if '0' ≤ c ∧ c ≤ '9' then some (c.toNat - '0'.toNat)
  else if 'a' ≤ c ∧ c ≤ 'f' then some (c.toNat - 'a'.toNat + 10)
  else if 'A' ≤ c ∧ c ≤ 'F' then some (c.toNat - 'A'.toNat + 10)
  else none

def digitValB (base : Nat) (c : Char) : Option Nat :=
  match hexDigitVal c with
  | some v => if v < base then some v else none
  | none => none

def takeDigitsVal (base : Nat) : List Char → Nat → Nat → (Nat × Nat)
  | [], acc, count => (acc, count)
  | c :: rest, acc, count =>
      match digitValB base c with
      | some v => takeDigitsVal base rest (acc * base + v) (count + 1)
      | none => (acc, count)

/-- `parseInt(s, base)` for base 10/16 as used on entity bodies: skip leading
whitespace, optional sign, optional `0x` for base 16, then greedy digits;
`none` models NaN (no digits). -/
def jsParseInt (base : Nat) (cs : List Char) : Option Int :=
  let cs := cs.dropWhile isWSChar
  let sgn : Int := match cs with | '-' :: _ => -1 | _ => 1
  let cs := match cs with | '-' :: r => r | '+' :: r => r | _ => cs
  let cs := if base = 16 then
      match cs with
      | '0' :: 'x' :: r => r
      | '0' :: 'X' :: r => r
      | _ => cs
    else cs
  let (v, count) := takeDigitsVal base cs 0 0
  if count = 0 then none else some (sgn * (v : Int))

/-- `String.fromCharCode(n)`: ToUint16 then the UTF-16 code unit.  (A lone
surrogate is not a Lean `Char`; `Char.ofNat` maps those to `'\0'` — none of
the settled theorems evaluate entities in the surrogate range.) -/
def fromCharCode (n? : Option Int) : Char :=
  match n? with
  | none => Char.ofNat 0
  | some n => Char.ofNat (n % 65536).toNat

/-- The replacement for a matched `&entity;`: `#x`-hex or `#`-decimal
character references, the four named entities, or the full match unchanged
for an unknown entity. -/
def entityReplace (ent : List Char) : List Char :=
  if ent.take 2 = ['#', 'x'] then [fromCharCode (jsParseInt 16 (ent.drop 2))]
  else if ent.take 1 = ['#'] then [fromCharCode (jsParseInt 10 (ent.drop 1))]
  else if ent = "lt".data then ['<']
  else if ent = "gt".data then ['>']
  else if ent = "amp".data then ['&']
  else if ent = "quot".data then ['"']
  else '&' :: (ent ++ [';'])

/-- `resolveEntities`: the global regex `&([^;]+);` replacement — at each `&`,
the content runs to the first following `;` (at least one character), and an
`&` with no following `;` (or an immediate `;`) is left alone. -/
def resolveEntitiesAux : Nat → List Char → List Char
  | _, [] => []
  | 0, cs => cs
  | fuel + 1, cs =>
      match cs with
      | '&' :: rest =>
          (match rest.findIdx? (fun c => c = ';') with
           | some 0 => '&' :: resolveEntitiesAux fuel rest
           | some k => entityReplace (rest.take k) ++ resolveEntitiesAux fuel (rest.drop (k + 1))
           | none => '&' :: rest)
      | c :: rest => c :: resolveEntitiesAux fuel rest
      | [] => []

def resolveEntitiesL (cs : List Char) : List Char :=
  resolveEntitiesAux cs.length cs

def resolveEntities (s : String) : String :=
  (resolveEntitiesL s.data).asString

/-! #### Low-level scanning helpers -/

def subStrL (cs : List Char) (start stop : Nat) : List Char :=
  (cs.take stop).drop start

def subStr (cs : List Char) (start stop : Nat) : String :=
  (subStrL cs start stop).asString

def indexOfFrom (cs : List Char) (c : Char) (start : Nat) : Option Nat :=
  ((cs.drop start).findIdx? (fun x => x = c)).map (fun k => k + start)

def indexOfSubFrom (cs pat : List Char) (start : Nat) : Option Nat :=
  (List.range (cs.length + 1)).find?
    (fun i => decide (start ≤ i) && pat.isPrefixOf (cs.drop i))

def skipWsPos (cs : List Char) (pos : Nat) : Nat :=
  pos + ((cs.drop pos).takeWhile isWSChar).length

/-! #### `parseContent` -/

structure RawAttr where
  name : String
  value : String
deriving Repr

structure ContentResult where
  cname : String
  attributes : List RawAttr
  parsed : Nat
deriving Repr

/-- The attribute loop of `parseContent`. -/
def parseAttrsLoop (cs : List Char) : Nat → Nat → List RawAttr →
    Except Err (List RawAttr × Nat)
  | 0, pos, acc => .ok (acc, pos)
  | fuel + 1, pos, acc =>
      match cs.get? pos with
      | none => .ok (acc, pos)
      | some ch =>
          if ch = '>' ∨ ch = '/' ∨ ch = '?' then .ok (acc, pos)
          else
            let pos := skipWsPos cs pos
            let nameLen := ((cs.drop pos).takeWhile
              (fun c => !(isWSChar c || c = '='))).length
            let attrName := subStr cs pos (pos + nameLen)
            let pos := skipWsPos cs (pos + nameLen)
            if cs.get? pos ≠ some '=' then .error (.parseError "= expected")
            else
              let pos := skipWsPos cs (pos + 1)
              match cs.get? pos with
              | some q =>
                  if q = '"' ∨ q = '\'' then
                    match indexOfFrom cs q (pos + 1) with
                    | none => .error (.parseError "Unexpected EOF[6]")
                    | some stop =>
                        let attrValue := subStrL cs (pos + 1) stop
                        parseAttrsLoop cs fuel (skipWsPos cs (stop + 1))
                          (acc ++ [⟨attrName, (resolveEntitiesL attrValue).asString⟩])
                  else .error (.parseError "Quote expected")
              | none => .error (.parseError "Quote expected")

/-- `parseContent(s, start)`: scan the tag name, then the attribute list. -/
def parseContent (cs : List Char) (start : Nat) : Except Err ContentResult := do
  let nameLen := ((cs.drop start).takeWhile
    (fun c => !(isWSChar c || c = '>' || c = '/'))).length
  let name := subStr cs start (start + nameLen)
  let pos := skipWsPos cs (start + nameLen)
  let (attrs, pos) ← parseAttrsLoop cs (cs.length + 1) pos []
  .ok ⟨name, attrs, pos - start⟩

/-- `parseProcessingInstruction(s, start)`. -/
def parsePI (cs : List Char) (start : Nat) : (String × String × Nat) :=
  let nameLen := ((cs.drop start).takeWhile
    (fun c => !(isWSChar c || c = '>' || c = '/'))).length
  let name := subStr cs start (start + nameLen)
  let pos := skipWsPos cs (start + nameLen)
  let attrStart := pos
  let stop := (indexOfSubFrom cs ['?', '>'] pos).getD cs.length
  (name, subStr cs attrStart stop, stop - start)

/-! #### Scope construction for an open tag -/

/-- Process the raw attributes of an open tag against the enclosing scopes:
`xmlns`/`xmlns:p` attributes become scope declarations (and are deleted from
the attribute list), `xml:space|lang|base|id` are recognized (`space`
recorded; they stay in the list), any other `xml…` attribute is an error. -/
def processTagAttrs (scopes : List PScope) :
    List RawAttr → PScope → List RawAttr →
    Except Err (PScope × List RawAttr)
  | [], scope, kept => .ok (scope, kept)
  | a :: rest, scope, kept =>
      if a.name.startsWith "xmlns:" then
        let pfx := (a.name.data.drop 6).asString
        let uri := a.value
        if lookupNs scopes pfx ≠ some uri then
          processTagAttrs scopes rest
            { scope with
              lookup := (pfx, trimWhitespaces uri) :: scope.lookup
              namespaces := scope.namespaces ++ [⟨uri, pfx⟩] } kept
        else processTagAttrs scopes rest scope kept
      else if a.name = "xmlns" then
        let uri := a.value
        if lookupDefaultNs scopes ≠ uri then
          processTagAttrs scopes rest
            { scope with
              xmlns? := some (trimWhitespaces uri)
              namespaces := scope.namespaces ++ [⟨uri, ""⟩] } kept
        else processTagAttrs scopes rest scope kept
      else if a.name.startsWith "xml:" then
        let xmlAttrName := (a.name.data.drop 4).asString
        if xmlAttrName ≠ "space" ∧ xmlAttrName ≠ "lang" ∧
           xmlAttrName ≠ "base" ∧ xmlAttrName ≠ "id" then
          .error (.parseError ("Invalid xml attribute: " ++ a.name))
        else
          let scope := if xmlAttrName = "space" then
              { scope with space? := some (trimWhitespaces a.value) }
            else scope
          processTagAttrs scopes rest scope (kept ++ [a])
      else if a.name.startsWith "xml" then
        .error (.parseError "Invalid xml attribute")
      else processTagAttrs scopes rest scope (kept ++ [a])

/-- The in-scope namespace set of a new element scope: its own declarations
that survived the lookup-consistency filter, plus the enclosing in-scope
namespaces not shadowed by this scope. -/
def computeInScopes (outer : PScope) (scope : PScope) : List PNS :=
  scope.namespaces.filter
    (fun ns => ns.pfx = "" || lookupInScope scope ns.pfx == some ns.uri) ++
  outer.inScopes.filter
    (fun ns => (ns.pfx ≠ "" ∧ lookupInScope scope ns.pfx = none) ∨
               (ns.pfx = "" ∧ scope.xmlns? = none))

/-! #### The tree-building sink (`parseFromString`'s callbacks) -/

/-- Parser/builder state: the scope stack (innermost first), the open-element
stack (innermost first), and the current element (`none` models the JS
`undefined` after popping an empty stack). -/
structure PState where
  scopes : List PScope
  stack : List XML
  current : Option XML

def appendChildP (x : XML) (c : XML) : XML :=
  x.withChildren (x.children ++ [c])

/-- The `text` sink: trim when `ignoreWhitespace`; skip empty text and
preserved-whitespace text under `ignoreWhitespace`; else insert a Text node. -/
def sinkText (st : Settings) (ps : PState) (text : String) (preserved : Bool) :
    Except Err PState :=
  let text := if st.ignoreWhitespace then trimWhitespaces text else text
  if text.length = 0 ∨ (preserved ∧ st.ignoreWhitespace) then .ok ps
  else
    match ps.current with
    | none => .error .typeError
    | some cur =>
        .ok { ps with current := some (appendChildP cur
          ((createXMLNode st .text "" "" none).withValue text)) }

def sinkCData (st : Settings) (ps : PState) (text : String) : Except Err PState :=
  match ps.current with
  | none => .error .typeError
  | some cur =>
      .ok { ps with current := some (appendChildP cur
        ((createXMLNode st .text "" "" none).withValue text)) }

def sinkComment (st : Settings) (ps : PState) (text : String) : Except Err PState :=
  if st.ignoreComments then .ok ps
  else
    match ps.current with
    | none => .error .typeError
    | some cur =>
        .ok { ps with current := some (appendChildP cur
          ((createXMLNode st .comment "" "" none).withValue text)) }

def sinkPI (st : Settings) (ps : PState) (name value : String) : Except Err PState :=
  if st.ignoreProcessingInstructions then .ok ps
  else
    match ps.current with
    | none => .error .typeError
    | some cur =>
        .ok { ps with current := some (appendChildP cur
          ((createXMLNode st .processingInstruction "" name none).withValue value)) }

/-- Build the attribute nodes of a new element. -/
def buildAttrNodes (st : Settings) (names : List (PName × String)) : List XML :=
  names.map (fun nv =>
    ((createXMLNode st .attribute nv.1.nsuri nv.1.localName (some nv.1.pfx)).withValue nv.2))

/-- Build the in-scope `ASNamespace` list of a new element (the 2-argument
namespace constructor can throw). -/
def buildNsNodes : List PNS → Except Err (List ASNamespace)
  | [] => .ok []
  | ns :: rest => do
      let n ← newASNamespace2 (some ns.pfx) ns.uri
      let r ← buildNsNodes rest
      .ok (n :: r)

/-- The `beginElement` sink (with the pure append-on-close convention: an
empty element is appended to the current element immediately; otherwise the
current element is pushed and the fresh element becomes current). -/
def sinkBeginElement (st : Settings) (ps : PState) (name : PName)
    (attrs : List (PName × String)) (namespaces : List PNS) (isEmpty : Bool) :
    Except Err PState := do
  let el0 := createXMLNode st .element name.nsuri name.localName (some name.pfx)
  let el1 := XML.mk el0.kind el0.name? el0.value el0.nss (buildAttrNodes st attrs)
    el0.children
  let nss ← buildNsNodes namespaces
  let el := XML.mk el1.kind el1.name? el1.value nss el1.attrs el1.children
  match ps.current with
  | none => .error .typeError
  | some cur =>
      if isEmpty then .ok { ps with current := some (appendChildP cur el) }
      else .ok { ps with stack := cur :: ps.stack, current := some el }

/-- The `endElement` sink: pop the parent and append the finished element to
it; popping an empty stack leaves `current = undefined`. -/
def sinkEndElement (ps : PState) : PState :=
  match ps.stack with
  | parent :: rest =>
      match ps.current with
      | some cur => { ps with stack := rest, current := some (appendChildP parent cur) }
      | none => { ps with stack := rest, current := some parent }
  | [] => { ps with current := none }

/-- Resolve the kept raw attributes of an open tag (`getName(…, false)`). -/
def resolveTagAttrs (scopes : List PScope) :
    List RawAttr → Except Err (List (PName × String))
  | [] => .ok []
  | a :: rest => do
      let n ← getName scopes a.name false
      let r ← resolveTagAttrs scopes rest
      .ok ((n, a.value) :: r)

/-! #### The main scan loop -/

/-- One pass of `parseXml`'s `while (i < s.length)` loop, with explicit fuel
(the index strictly increases every iteration, so `length + 1` suffices). -/
def parseLoop (st : Settings) (cs : List Char) :
    Nat → Nat → PState → Except Err PState
  | 0, i, ps =>
      if i < cs.length then .error (.parseError "out of fuel") else .ok ps
  | fuel + 1, i, ps =>
      if i ≥ cs.length then .ok ps
      else if cs.get? i = some '<' then
        let j := i + 1
        match cs.get? j with
        | some '/' => do
            -- end tag
            match indexOfFrom cs '>' (j + 1) with
            | none => .error (.parseError "Unexpected EOF[1]")
            | some q => do
                let _ ← getName ps.scopes (subStr cs (j + 1) q) true
                let ps := sinkEndElement ps
                let ps := { ps with scopes := ps.scopes.tail }
                parseLoop st cs fuel (q + 1) ps
        | some '?' => do
            let r := parsePI cs (j + 1)
            if subStrL cs (j + 1 + r.2.2) (j + 1 + r.2.2 + 2) ≠ ['?', '>'] then
              .error (.parseError "Unexpected EOF[2]")
            else do
              let ps ← sinkPI st ps r.1 r.2.1
              parseLoop st cs fuel (j + 1 + r.2.2 + 2) ps
        | some '!' =>
            if subStrL cs (j + 1) (j + 3) = ['-', '-'] then
              match indexOfSubFrom cs ['-', '-', '>'] (j + 3) with
              | none => .error (.parseError "Unexpected EOF[3]")
              | some q => do
                  let ps ← sinkComment st ps (subStr cs (j + 3) q)
                  parseLoop st cs fuel (q + 3) ps
            else if subStrL cs (j + 1) (j + 8) = "[CDATA[".data then
              match indexOfSubFrom cs [']', ']', '>'] (j + 8) with
              | none => .error (.parseError "Unexpected EOF[4]")
              | some q => do
                  let ps ← sinkCData st ps (subStr cs (j + 8) q)
                  parseLoop st cs fuel (q + 3) ps
            else if subStrL cs (j + 1) (j + 8) = "DOCTYPE".data then
              match indexOfFrom cs '>' (j + 8) with
              | none => .error (.parseError "Unexpected EOF[5]")
              | some q =>
                  let q2? := indexOfSubFrom cs ['['] (j + 8)
                  match q2? with
                  | some q2 =>
                      if q > q2 then
                        match indexOfSubFrom cs [']', '>'] (j + 8) with
                        | none => .error (.parseError "Unexpected EOF[7]")
                        | some q' => parseLoop st cs fuel (q' + 2) ps
                      else parseLoop st cs fuel (q + 1) ps
                  | none => parseLoop st cs fuel (q + 1) ps
            else .error (.parseError "Unknown !tag")
        | _ => do
            -- open tag (also reached at end of input, where parseContent
            -- scans nothing and the `>` check below fails)
            let content ← parseContent cs j
            let isClosed := subStrL cs (j + content.parsed) (j + content.parsed + 2) =
              ['/', '>']
            if ¬ isClosed ∧ subStrL cs (j + content.parsed) (j + content.parsed + 1) ≠
                ['>'] then
              .error (.parseError "Unexpected EOF[2]")
            else do
              let scope0 : PScope :=
                { namespaces := [], lookup := [], xmlns? := none, space? := none
                  inScopes := [] }
              let (scope1, kept) ← processTagAttrs ps.scopes content.attributes scope0 []
              match ps.scopes with
              | [] => .error .typeError
              | outer :: _ => do
                  let scope := { scope1 with inScopes := computeInScopes outer scope1 }
                  let newScopes := scope :: ps.scopes
                  let attrs ← resolveTagAttrs newScopes kept
                  let elName ← getName newScopes content.cname true
                  let ps ← sinkBeginElement st ps elName attrs scope.inScopes isClosed
                  let ps := { ps with scopes := if isClosed then newScopes.tail else newScopes }
                  parseLoop st cs fuel (j + content.parsed + (if isClosed then 2 else 1)) ps
      else
        -- text run up to the next '<'
        let j := (indexOfFrom cs '<' (i + 1)).getD cs.length
        let text := subStr cs i j
        match sinkText st ps (resolveEntities text) (isWhitespacePreserved ps.scopes) with
        | .ok ps => parseLoop st cs fuel j ps
        | .error e => .error e

/-- `parseFromString`: run the scan from a fresh placeholder element
(`createXML(Element, '', '', '')`); the final current element is the result
(a JS `undefined` result, after an unmatched end tag, is the downstream
TypeError). -/
def parseFromString (st : Settings) (s : String) : Except Err XML := do
  let ph := createXMLNode st .element "" "" (some "")
  let ps0 : PState := { scopes := [initialScope st], stack := [], current := some ph }
  let ps ← parseLoop st s.data (s.data.length + 1) 0 ps0
  match ps.current with
  | some x => .ok x
  | none => .error .typeError

/-! ### 10.3 ToXML (string-to-XML coercion) -/

instance : Inhabited XML := ⟨.mk .text none "" [] [] []⟩

/-- `toXML` on a string input: parse; zero roots yield an *empty text node*
(no error), exactly one root is returned, more than one root raises
`MarkupMustBeWellFormed`. -/
def toXML (st : Settings) (s : String) : Except Err XML := do
  let x ← parseFromString st s
  if x.children.length = 0 then .ok (createXMLNode st .text "" "" none)
  else if x.children.length = 1 then .ok x.children.headI
  else .error .markupMustBeWellFormed

/-- The element `<a>` with two adjacent Text children `"a"`, `"b"`. -/
def xC1 : XML := elemNode "a" [] [textNode "a", textNode "b"]

/-- Claim C1 as stated is false of the code: the tree `<a>` with the two Text
children `"a"` and `"b"` contains no comments/PIs and declares no namespace
prefixes at all, yet serializing and re-parsing it (at the default settings
used by `toXMLString`/`parse`) merges the adjacent text into one Text child
`"a\n  b"`, which is not `deepEquals` to the original. -/
theorem C1_roundtrip_counterexample :
    toXMLString defaultSettings xC1 = .ok "<a>\n  a\n  b\n</a>" ∧
    toXML defaultSettings "<a>\n  a\n  b\n</a>" =
      .ok (elemNode "a" [] [textNode "a\n  b"]) ∧
    deepEqualsX defaultSettings xC1 (elemNode "a" [] [textNode "a\n  b"]) =
      .ok false := by
  refine ⟨rfl, rfl, ?_⟩
  rw [show xC1 = .mk .element (some ⟨some ⟨some "", ""⟩, "a", false⟩) "" []
    [] [textNode "a", textNode "b"] from rfl]
  rw [deepEqualsX]
  simp [elemNode, textNode, XML.children, XML.attrs, XML.kind, XML.name?]

/-- The element `<a>` with an empty Text child followed by an element child
`<b/>` — the input on which `normalize` misbehaves. -/
def xC3 : XML := elemNode "a" [] [textNode "", elemNode "b" [] []]

/-- Claim C3 is contradicted by the code (an off-by-one slip against the E4X
algorithm its own comments cite): on the element with children
`[Text "", <b/>]`, one `normalize` pass deletes the element child `<b/>` and
keeps the empty Text child (the cited "Step 2.b.ii." removal targets the
index after the already-advanced cursor), so the result still has an empty
Text child; and applying `normalize` to that result throws a TypeError
(`removeByIndex` reads past the end of the child list), modelled as `none` —
hence `normalize (normalize x)` differs from `normalize x`, refuting
idempotence. -/
theorem C3_normalize_code_bug :
    normalize xC3 = some (elemNode "a" [] [textNode ""]) ∧
    hasEmptyTextChild (elemNode "a" [] [textNode ""]) = true ∧
    (normalize xC3).bind normalize = none ∧
    ¬ ((normalize xC3).bind normalize = normalize xC3) := by
  have h1 : normalize xC3 = some (elemNode "a" [] [textNode ""]) := rfl
  have h2 : (normalize xC3).bind normalize = none := rfl
  refine ⟨h1, rfl, h2, ?_⟩
  intro h
  rw [h2, h1] at h
  exact Option.noConfusion h

/-! ### The arena embedding

Object identity, in-place mutation and the parent back-reference are modelled
by a store of node records addressed by ids, per the repository design note
("replace pointer-based parent/child edges with an arena of nodes addressed by
stable indices; parent becomes a lookup field").  The pure-tree view of a
node is recovered by `readTree`. -/

/-- One `ASXML` object: its fields, with child/attribute edges and the parent
back-reference as ids. -/
structure NodeRec where
  kind : XMLKind
  name? : Option ASQName
  value : String
  parent? : Option Nat
  nss : List ASNamespace
  attrs : List Nat
  children : List Nat
deriving DecidableEq, Repr

/-- The heap: node records addressed by position. -/
abbrev Store := List NodeRec

def setN (sto : Store) (i : Nat) (n : NodeRec) : Store := sto.set i n

mutual

/-- Read the pure tree value rooted at id `i` (the parent field is not part
of the value); `none` on a dangling id or insufficient fuel. -/
def readTree (sto : Store) : Nat → Nat → Option XML
  | 0, _ => none
  | fuel + 1, i =>
      match sto.get? i with
      | none => none
      | some r =>
          match readTreeList sto fuel r.attrs, readTreeList sto fuel r.children with
          | some as', some cs => some (.mk r.kind r.name? r.value r.nss as' cs)
          | _, _ => none

def readTreeList (sto : Store) : Nat → List Nat → Option (List XML)
  | _, [] => some []
  | 0, _ :: _ => none
  | fuel + 1, i :: rest =>
      match readTree sto fuel i, readTreeList sto fuel rest with
      | some x, some xs => some (x :: xs)
      | _, _ => none

end

/-! ### C10: `ASXML.contains` -/

/-- 13.4.4.10 `XML.prototype.contains(value)`: `return this === value` —
reference identity, which in the arena is id equality. -/
def containsN (x v : Nat) : Bool := x == v

/-- A store holding two structurally identical but distinct text nodes and an
element whose child is the first of them. -/
def stC10 : Store :=
  [⟨.text, none, "hi", some 2, [], [], []⟩,
   ⟨.text, none, "hi", none, [], [], []⟩,
   ⟨.element, some ⟨some ⟨some "", ""⟩, "a", false⟩, "", none, [], [], [0]⟩]

/-- Claim C10: `contains` is reference identity — it returns `true` exactly
when the argument is the very node itself; a distinct node that is
`deepEquals` to it (ids 0 and 1 of `stC10`, whose trees are equal and deep-
equal) and even a direct child (id 0 of element 2) are reported as not
contained. -/
theorem C10_contains :
    (∀ x v : Nat, containsN x v = true ↔ x = v) ∧
    readTree stC10 2 0 = some (XML.mk .text none "hi" [] [] []) ∧
    readTree stC10 2 1 = some (XML.mk .text none "hi" [] [] []) ∧
    deepEqualsX defaultSettings (XML.mk .text none "hi" [] [] [])
      (XML.mk .text none "hi" [] [] []) = .ok true ∧
    containsN 0 1 = false ∧
    (0 : Nat) ∈ (stC10.get? 2).elim ([] : List Nat) NodeRec.children ∧
    containsN 2 0 = false := by
  refine ⟨?_, rfl, rfl, ?_, rfl, ?_, rfl⟩
  · intro x v
    simp [containsN]
  · rw [deepEqualsX]
    simp [XML.kind, XML.name?, XML.value, namesMatch]
  · simp [stC10]

/-! ### C6: XMLList single-item accessors -/

/-- JS `toString(null) = "null"`, used by the 1-argument Namespace
constructor below. -/
def newASNamespace1 (uri? : Option String) : ASNamespace :=
  match uri? with
  | none => ⟨none, "null"⟩
  | some u => if u = "" then ⟨some "", ""⟩ else ⟨none, u⟩

/-- `ASQName.setUri('')` (used by `setName` on a PI): sets the namespace uri
to the empty string, creating the namespace slot if missing. -/
def setUriEmpty (q : ASQName) : ASQName :=
  match q.ns with
  | some ns => ⟨some ⟨ns.pfx, ""⟩, q.localName, q.isAttribute⟩
  | none => ⟨some ⟨none, ""⟩, q.localName, q.isAttribute⟩

/-- 9.1.1.13 `addInScopeNamespace` on a node record.  Faithful quirks: the
function never *adds* the namespace — it only replaces same-prefix
declarations with a different uri; and the `_name.prefix = undefined`
assignments hit a getter-only accessor and are silent no-ops. -/
def addInScopeNamespaceRec (r : NodeRec) (ns : ASNamespace) : NodeRec :=
  if r.kind = .text ∨ r.kind = .comment ∨ r.kind = .processingInstruction ∨
     r.kind = .attribute then r
  else
    match ns.pfx with
    | none => r
    | some p =>
        if p = "" ∧ (r.name?.bind ASQName.uri) = some "" then r
        else
          match (r.nss.filter (fun v => v.pfx = some p)).getLast? with
          | some m =>
              if m.uri ≠ ns.uri then
                { r with nss := r.nss.map (fun v => if v.pfx = m.pfx then ns else v) }
              else r
          | none => r

/-- 13.4.4.35 `XML.prototype.setName(name)` for a string argument. -/
def xmlSetName (st : Settings) (sto : Store) (x : Nat) (name : String) :
    Except Err Store :=
  match sto.get? x with
  | none => .error .typeError
  | some r =>
      if r.kind = .text ∨ r.kind = .comment then .ok sto
      else
        let q0 := newASQName st none name false
        let q := if r.kind = .processingInstruction then setUriEmpty q0 else q0
        let sto1 := setN sto x { r with name? := some q }
        let nodeId? : Option Nat :=
          if r.kind = .attribute then r.parent? else some x
        match nodeId? with
        | none => .ok sto1
        | some nid =>
            match sto1.get? nid with
            | none => .error .typeError
            | some nr =>
                .ok (setN sto1 nid (addInScopeNamespaceRec nr (newASNamespace1 q.uri)))

/-- 13.4.4.7 `XML.prototype.childIndex()`. -/
def xmlChildIndex (sto : Store) (x : Nat) : Except Err Int :=
  match sto.get? x with
  | none => .error .typeError
  | some r =>
      match r.parent? with
      | none => .ok (-1)
      | some p =>
          if r.kind = .attribute then .ok (-1)
          else
            match sto.get? p with
            | none => .error .typeError
            | some pr =>
                .ok (match pr.children.indexOf? x with
                     | some i => (i : Int)
                     | none => -1)

/-- `_addInScopeNamespaces`: push unless an identical (uri, prefix) pair is
already declared; on a non-Element node `_inScopeNamespaces` is undefined
and the access throws. -/
def xmlAddNamespace (sto : Store) (x : Nat) (ns : ASNamespace) :
    Except Err Store :=
  match sto.get? x with
  | none => .error .typeError
  | some r =>
      if r.kind ≠ .element then .error .typeError
      else if r.nss.any (fun ins => ins.uri = ns.uri ∧ ins.pfx = ns.pfx) then .ok sto
      else .ok (setN sto x { r with nss := r.nss ++ [ns] })

/-- The dedup-by-prefix accumulation of `_inScopeNamespacesImpl`. -/
def collectNssDedup (acc : List ASNamespace) : List ASNamespace → List ASNamespace
  | [] => acc
  | ns :: rest =>
      collectNssDedup
        (if acc.any (fun a => a.pfx = ns.pfx) then acc else acc ++ [ns]) rest

/-- The parent walk of `_inScopeNamespacesImpl` (fueled: a cyclic parent
chain would loop forever in JS). -/
def inScopeLoop (sto : Store) : Nat → Option Nat → List ASNamespace → List ASNamespace
  | _, none, acc => acc
  | 0, some _, acc => acc
  | fuel + 1, some y, acc =>
      match sto.get? y with
      | none => acc
      | some r => inScopeLoop sto fuel r.parent? (collectNssDedup acc r.nss)

/-- The result of `XML.prototype.namespace([prefix])`: `null`, `undefined`,
or a namespace. -/
inductive NsResult where
  | nullR
  | undefinedR
  | nsR (ns : ASNamespace)
deriving DecidableEq, Repr

/-- 13.4.4.23 `XML.prototype.namespace([prefix])`. -/
def xmlNamespaceOp (sto : Store) (x : Nat) (prefix? : Option String) :
    Except Err NsResult :=
  match sto.get? x with
  | none => .error .typeError
  | some r =>
      if prefix?.isNone ∧ (r.kind = .text ∨ r.kind = .comment ∨
          r.kind = .processingInstruction) then .ok .nullR
      else
        let inScopeNS := inScopeLoop sto (sto.length + 1) (some x) []
        match prefix? with
        | none =>
            match r.name? with
            | none => .error .typeError
            | some nm =>
                match nm.getNamespace inScopeNS with
                | .ok ns => .ok (.nsR ns)
                | .error e => .error e
        | some p =>
            match inScopeNS.find? (fun ns => ns.pfx = some p) with
            | some ns => .ok (.nsR ns)
            | none => .ok .undefinedR

/-- The result of `XMLList.prototype.parent()`: `undefined`, `null` (a common
null parent), or the common parent node. -/
inductive ParentResult where
  | undefinedP
  | nullP
  | nodeP (id : Nat)
deriving DecidableEq, Repr

def parentsAllEq (sto : Store) (p0 : Option Nat) : List Nat → Except Err Bool
  | [] => .ok true
  | c :: rest =>
      match sto.get? c with
      | none => .error .typeError
      | some r => if r.parent? = p0 then parentsAllEq sto p0 rest else .ok false

/-- 13.5.4.17 `XMLList.prototype.parent()`: empty list → `undefined`;
otherwise the common parent of all members, `undefined` on a mismatch.
It performs **no** single-item check. -/
def xmlListParent (sto : Store) (l : List Nat) : Except Err ParentResult :=
  match l with
  | [] => .ok .undefinedP
  | c0 :: rest =>
      match sto.get? c0 with
      | none => .error .typeError
      | some r0 => do
          let e ← parentsAllEq sto r0.parent? rest
          if e then
            .ok (match r0.parent? with
                 | none => .nullP
                 | some p => .nodeP p)
          else .ok .undefinedP

/-- `XMLList.prototype.setName`: requires exactly one member. -/
def xmlListSetName (st : Settings) (sto : Store) (l : List Nat) (name : String) :
    Except Err Store :=
  if l.length ≠ 1 then .error (.singleItemListRequired "setName")
  else xmlSetName st sto l.headI name

/-- `XMLList.prototype.childIndex`: requires exactly one member. -/
def xmlListChildIndex (sto : Store) (l : List Nat) : Except Err Int :=
  if l.length ≠ 1 then .error (.singleItemListRequired "childIndex")
  else xmlChildIndex sto l.headI

/-- `XMLList.prototype.addNamespace`: requires exactly one member. -/
def xmlListAddNamespace (sto : Store) (l : List Nat) (ns : ASNamespace) :
    Except Err Store :=
  if l.length ≠ 1 then .error (.singleItemListRequired "addNamespace")
  else xmlAddNamespace sto l.headI ns

/-- `XMLList.prototype.namespace`: requires exactly one member. -/
def xmlListNamespace (sto : Store) (l : List Nat) (prefix? : Option String) :
    Except Err NsResult :=
  if l.length ≠ 1 then .error (.singleItemListRequired "namespace")
  else xmlNamespaceOp sto l.headI prefix?

/-- Claim C6, amended: the single-item delegating accessors (`setName`,
`childIndex`, `addNamespace`, `namespace`, …) raise `SingleItemListRequired`
naming the operation whenever the list length is not exactly 1, and delegate
to the sole member when it is; but `parent` — listed by the claim — is *not*
such an accessor: it never raises this error (see the counterexample). -/
theorem C6_single_item_accessors (st : Settings) (sto : Store) (l : List Nat)
    (name : String) (ns : ASNamespace) (prefix? : Option String) :
    (l.length ≠ 1 →
      xmlListSetName st sto l name = .error (.singleItemListRequired "setName") ∧
      xmlListChildIndex sto l = .error (.singleItemListRequired "childIndex") ∧
      xmlListAddNamespace sto l ns = .error (.singleItemListRequired "addNamespace") ∧
      xmlListNamespace sto l prefix? = .error (.singleItemListRequired "namespace")) ∧
    (l.length = 1 →
      xmlListSetName st sto l name = xmlSetName st sto l.headI name ∧
      xmlListChildIndex sto l = xmlChildIndex sto l.headI ∧
      xmlListAddNamespace sto l ns = xmlAddNamespace sto l.headI ns ∧
      xmlListNamespace sto l prefix? = xmlNamespaceOp sto l.headI prefix?) := by
  constructor
  · intro h
    exact ⟨by rw [xmlListSetName, if_pos h], by rw [xmlListChildIndex, if_pos h],
      by rw [xmlListAddNamespace, if_pos h], by rw [xmlListNamespace, if_pos h]⟩
  · intro h
    have h' : ¬ l.length ≠ 1 := by omega
    exact ⟨by rw [xmlListSetName, if_neg h'], by rw [xmlListChildIndex, if_neg h'],
      by rw [xmlListAddNamespace, if_neg h'], by rw [xmlListNamespace, if_neg h']⟩

/-- A store with an element (id 0) having two element children (ids 1, 2). -/
def stC6 : Store :=
  [⟨.element, some ⟨some ⟨some "", ""⟩, "p", false⟩, "", none, [], [], [1, 2]⟩,
   ⟨.element, some ⟨some ⟨some "", ""⟩, "c", false⟩, "", some 0, [], [], []⟩,
   ⟨.element, some ⟨some ⟨some "", ""⟩, "d", false⟩, "", some 0, [], [], []⟩]

/-- Counterexample to claim C6 as stated: `parent` on the 2-element list
`[1, 2]` does not raise `SingleItemListRequired` — it returns the common
parent. -/
theorem C6_parent_counterexample :
    [1, 2].length ≠ 1 ∧
    xmlListParent stC6 [1, 2] = .ok (.nodeP 0) := by
  exact ⟨by norm_num, rfl⟩

/-- Witness for C6 at a concrete 2-element list and a concrete 1-element
list. -/
theorem C6_single_item_accessors_witness :
    xmlListSetName defaultSettings stC6 [1, 2] "z" =
      .error (.singleItemListRequired "setName") ∧
    xmlListChildIndex stC6 [2] = xmlChildIndex stC6 2 :=
  ⟨((C6_single_item_accessors defaultSettings stC6 [1, 2] "z" ⟨some "", ""⟩ none).1
      (by norm_num)).1,
   ((C6_single_item_accessors defaultSettings stC6 [2] "z" ⟨some "", ""⟩ none).2
      (by norm_num)).2.1⟩

/-! ### C8: the parent/child invariant and the tree mutators

The mutators write into the JS array `self._children` by index, and
`children[i] = v` with `i > children.length` creates a *sparse* array with
holes below `i`.  The store model for C8 therefore carries children as
`List (Option Nat)`: `some c` is a real slot holding node `c`, `none` is a
hole produced by a sparse write.  All other fields match `NodeRec`. -/

/-- A successful lookup index is within the store (original `Store` model). -/
theorem get?_some_lt {sto : Store} {i : Nat} {r : NodeRec}
    (h : sto.get? i = some r) : i < sto.length := by
  by_contra hge
  rw [List.get?_eq_none.mpr (by omega)] at h
  cases h

/-! ### C2: `ASXML._deepCopy` -/

/-- Whether `new ASNamespace(ns.prefix, ns.uri)` succeeds: the two-argument
constructor throws for an empty uri with a non-empty concrete pfx. -/
def nsConstructible (ns : ASNamespace) : Bool :=
  ns.uri != "" || ns.pfx == none || ns.pfx == some ""

/-- The namespace value produced by reconstructing `ns` through the
two-argument constructor (an empty uri normalizes the pfx to `""`). -/
def nsNorm (ns : ASNamespace) : ASNamespace :=
  if ns.uri = "" then ⟨some "", ""⟩ else ns

/-- The `forEach`/`push` loop of `_deepCopy` over `_inScopeNamespaces`:
rebuild every namespace with the two-argument constructor. -/
def copyNss : List ASNamespace → Except Err (List ASNamespace)
  | [] => .ok []
  | ns :: rest =>
      match newASNamespace2 ns.pfx ns.uri with
      | .error e => .error e
      | .ok n =>
          match copyNss rest with
          | .error e => .error e
          | .ok r => .ok (n :: r)

/-- `node._parent = p` on one node of the store. -/
def patchParent (sto : Store) (j p : Nat) : Store :=
  match sto.get? j with
  | none => sto
  | some r => setN sto j { r with parent? := some p }

/-- Set the parent back-reference of each listed node. -/
def patchParents (sto : Store) : List Nat → Nat → Store
  | [], _ => sto
  | j :: js, p => patchParents (patchParent sto j p) js p

mutual

/-- 9.1.1.7 `ASXML._deepCopy` in the arena: clone the node's fields, rebuild
in-scope namespaces through the constructor, recursively copy attributes and
children and point their parent references at the freshly allocated clone,
whose own parent stays unset.  Caveat: the source line
`clone._name = this._name` (xml.ts:1560) makes the clone and the original
share one mutable `ASQName` *object*; `NodeRec` holds the name by value, so
this sharing is invisible here and is modeled separately by the name-heap
development (`QStore`/`NmStore`/`deepCopyScalarShared`) below — record-level
independence is all this arena can, and does, express. -/
def deepCopyN : Store → Nat → Nat → Except Err (Store × Nat)
  | _, 0, _ => .error .typeError
  | sto, fuel + 1, i =>
      match sto.get? i with
      | none => .error .typeError
      | some r =>
          if r.kind = .element then
            match copyNss r.nss with
            | .error e => .error e
            | .ok nss' =>
                match deepCopyListN sto fuel r.attrs with
                | .error e => .error e
                | .ok (sto1, aids) =>
                    match deepCopyListN sto1 fuel r.children with
                    | .error e => .error e
                    | .ok (sto2, cids) =>
                        let c := sto2.length
                        let sto3 := patchParents (patchParents sto2 aids c) cids c
                        .ok (sto3 ++ [⟨.element, r.name?, "", none, nss', aids, cids⟩], c)
          else .ok (sto ++ [⟨r.kind, r.name?, r.value, none, [], [], []⟩], sto.length)

def deepCopyListN : Store → Nat → List Nat → Except Err (Store × List Nat)
  | sto, _, [] => .ok (sto, [])
  | _, 0, _ :: _ => .error .typeError
  | sto, fuel + 1, i :: rest =>
      match deepCopyN sto fuel i with
      | .error e => .error e
      | .ok (sto1, c) =>
          match deepCopyListN sto1 fuel rest with
          | .error e => .error e
          | .ok (sto2, cs) => .ok (sto2, c :: cs)

end

mutual

/-- The pure-tree value of a deep copy: an element keeps its name, clears the
(unused) value, rebuilds its namespaces and recurses; a scalar node keeps
name and value and carries no namespaces, attributes or children. -/
def deepCopySpec : XML → XML
  | .mk k n v nss attrs children =>
      if k = .element then
        .mk .element n "" (nss.map nsNorm)
          (deepCopySpecList attrs) (deepCopySpecList children)
      else .mk k n v [] [] []

def deepCopySpecList : List XML → List XML
  | [] => []
  | t :: ts => deepCopySpec t :: deepCopySpecList ts

end

mutual

/-- Well-formedness for the deep-copy theorem: every element's in-scope
namespaces are constructible and its attributes are named non-elements. -/
def wfC2 : XML → Bool
  | .mk k _ _ nss attrs children =>
      if k = .element then
        nss.all nsConstructible &&
        attrs.all (fun a => a.name?.isSome && a.kind != XMLKind.element) &&
        wfC2List attrs && wfC2List children
      else true

def wfC2List : List XML → Bool
  | [] => true
  | t :: ts => wfC2 t && wfC2List ts

end

/-- Record equality up to the parent back-reference (which `readTree`
ignores). -/
def sameUpToParent (r r' : NodeRec) : Prop :=
  r.kind = r'.kind ∧ r.name? = r'.name? ∧ r.value = r'.value ∧
  r.nss = r'.nss ∧ r.attrs = r'.attrs ∧ r.children = r'.children

/-- Store evolution that preserves every existing node up to its parent
reference. -/
def storeLe (sto sto' : Store) : Prop :=
  ∀ i r, sto.get? i = some r → ∃ r', sto'.get? i = some r' ∧ sameUpToParent r r'

theorem sameUpToParent_refl (r : NodeRec) : sameUpToParent r r :=
  ⟨rfl, rfl, rfl, rfl, rfl, rfl⟩

theorem storeLe_trans {a b c : Store} (h1 : storeLe a b) (h2 : storeLe b c) :
    storeLe a c := by
  intro i r hg
  obtain ⟨r1, hg1, hs1⟩ := h1 i r hg
  obtain ⟨r2, hg2, hs2⟩ := h2 i r1 hg1
  exact ⟨r2, hg2, hs1.1.trans hs2.1, hs1.2.1.trans hs2.2.1, hs1.2.2.1.trans hs2.2.2.1,
    hs1.2.2.2.1.trans hs2.2.2.2.1, hs1.2.2.2.2.1.trans hs2.2.2.2.2.1,
    hs1.2.2.2.2.2.trans hs2.2.2.2.2.2⟩

theorem storeLe_of_preserve {sto sto' : Store}
    (h : ∀ j, j < sto.length → sto'.get? j = sto.get? j) : storeLe sto sto' := by
  intro i r hg
  refine ⟨r, ?_, sameUpToParent_refl r⟩
  rw [h i (get?_some_lt hg)]
  exact hg

theorem storeLe_append (sto ext : Store) : storeLe sto (sto ++ ext) := by
  apply storeLe_of_preserve
  intro j hj
  exact List.get?_append hj

theorem patchParent_length (sto : Store) (j p : Nat) :
    (patchParent sto j p).length = sto.length := by
  unfold patchParent
  split
  · rfl
  · simp [setN]

theorem patchParents_length (sto : Store) (as' : List Nat) (p : Nat) :
    (patchParents sto as' p).length = sto.length := by
  induction as' generalizing sto with
  | nil => rfl
  | cons a t ih => rw [patchParents, ih, patchParent_length]

theorem patchParent_get_ne {sto : Store} {j p i : Nat} (h : i ≠ j) :
    (patchParent sto j p).get? i = sto.get? i := by
  unfold patchParent
  split
  · rfl
  · rw [setN, List.get?_set_ne _ _ (fun he => h he.symm)]

theorem patchParents_get_ne {sto : Store} {as' : List Nat} {p i : Nat}
    (h : ∀ a ∈ as', i ≠ a) : (patchParents sto as' p).get? i = sto.get? i := by
  induction as' generalizing sto with
  | nil => rfl
  | cons a t ih =>
      rw [patchParents, ih (fun b hb => h b (List.mem_cons_of_mem a hb)),
        patchParent_get_ne (h a (List.mem_cons_self a t))]

theorem storeLe_patchParent (sto : Store) (j p : Nat) :
    storeLe sto (patchParent sto j p) := by
  intro i r hg
  by_cases hij : i = j
  · subst hij
    refine ⟨{ r with parent? := some p }, ?_, rfl, rfl, rfl, rfl, rfl, rfl⟩
    have hpp : patchParent sto i p = setN sto i { r with parent? := some p } := by
      unfold patchParent
      rw [hg]
    rw [hpp, setN, List.get?_set_eq_of_lt _ (get?_some_lt hg)]
  · exact ⟨r, by rw [patchParent_get_ne hij]; exact hg, sameUpToParent_refl r⟩

theorem storeLe_patchParents (sto : Store) (as' : List Nat) (p : Nat) :
    storeLe sto (patchParents sto as' p) := by
  induction as' generalizing sto with
  | nil => intro i r hg; exact ⟨r, hg, sameUpToParent_refl r⟩
  | cons a t ih =>
      rw [patchParents]
      exact storeLe_trans (storeLe_patchParent sto a p) (ih (patchParent sto a p))

theorem newASNamespace2_constructible {ns : ASNamespace}
    (h : nsConstructible ns = true) :
    newASNamespace2 ns.pfx ns.uri = .ok (nsNorm ns) := by
  unfold newASNamespace2 nsNorm
  by_cases hu : ns.uri = ""
  · rw [if_pos hu, if_pos hu]
    unfold nsConstructible at h
    rw [hu] at h
    simp only [bne_self_eq_false, Bool.false_or, Bool.or_eq_true, beq_iff_eq] at h
    cases hp : ns.pfx with
    | none => rfl
    | some p =>
        rw [hp] at h
        rcases h with h | h
        · cases h
        · rw [Option.some.inj h]
          rfl
  · rw [if_neg hu, if_neg hu]

theorem copyNss_spec {l : List ASNamespace}
    (h : ∀ ns ∈ l, nsConstructible ns = true) :
    copyNss l = .ok (l.map nsNorm) := by
  induction l with
  | nil => rfl
  | cons ns rest ih =>
      rw [copyNss, newASNamespace2_constructible (h ns (List.mem_cons_self ns rest)),
        ih (fun x hx => h x (List.mem_cons_of_mem ns hx))]
      rfl


theorem readTree_mono_all : ∀ (fuel : Nat) (sto sto' : Store), storeLe sto sto' →
    (∀ i t, readTree sto fuel i = some t → readTree sto' fuel i = some t) ∧
    (∀ ids ts, readTreeList sto fuel ids = some ts →
      readTreeList sto' fuel ids = some ts) := by
  intro fuel
  induction fuel with
  | zero =>
      intro sto sto' hle
      constructor
      · intro i t h
        simp [readTree] at h
      · intro ids ts h
        cases ids with
        | nil => exact h
        | cons i rest => simp [readTreeList] at h
  | succ fuel IH =>
      intro sto sto' hle
      obtain ⟨IHt, IHl⟩ := IH sto sto' hle
      constructor
      · intro i t h
        rw [readTree] at h ⊢
        cases hg : sto.get? i with
        | none => rw [hg] at h; cases h
        | some r =>
            rw [hg] at h
            obtain ⟨r', hg', hk, hn, hv, hns, hat, hch⟩ := hle i r hg
            rw [hg']
            have h' : (match readTreeList sto fuel r.attrs,
                readTreeList sto fuel r.children with
              | some as', some cs => some (XML.mk r.kind r.name? r.value r.nss as' cs)
              | _, _ => none) = some t := h
            show (match readTreeList sto' fuel r'.attrs,
                readTreeList sto' fuel r'.children with
              | some as', some cs => some (XML.mk r'.kind r'.name? r'.value r'.nss as' cs)
              | _, _ => none) = some t
            rw [← hat, ← hch, ← hk, ← hn, ← hv, ← hns]
            cases ha : readTreeList sto fuel r.attrs with
            | none => rw [ha] at h'; cases h'
            | some as' =>
                rw [ha] at h'
                cases hc : readTreeList sto fuel r.children with
                | none => rw [hc] at h'; cases h'
                | some cs =>
                    rw [hc] at h'
                    rw [IHl r.attrs as' ha, IHl r.children cs hc]
                    exact h'
      · intro ids ts h
        cases ids with
        | nil => exact h
        | cons i rest =>
            rw [readTreeList] at h ⊢
            cases hx : readTree sto fuel i with
            | none => rw [hx] at h; cases h
            | some xv =>
                rw [hx] at h
                cases hr : readTreeList sto fuel rest with
                | none => rw [hr] at h; cases h
                | some xs =>
                    rw [hr] at h
                    rw [IHt i xv hx, IHl rest xs hr]
                    exact h

theorem deepCopySpecList_length : ∀ ts : List XML,
    (deepCopySpecList ts).length = ts.length := by
  intro ts
  induction ts with
  | nil => rw [deepCopySpecList]
  | cons t ts ih => rw [deepCopySpecList]; simp [ih]

theorem equalsQ_refl (q : ASQName) : q.equalsQ q = true := by
  simp [ASQName.equalsQ]

theorem namesMatch_refl : ∀ n? : Option ASQName, namesMatch n? n? = true := by
  intro n?
  cases n? with
  | none => rfl
  | some q => simp [namesMatch, equalsQ_refl]

theorem attrFindMatch_spec : ∀ (a : XML) (attrs : List XML),
    a ∈ attrs →
    a.name?.isSome = true →
    (∀ b ∈ attrs, b.name?.isSome = true ∧ b.kind ≠ XMLKind.element) →
    attrFindMatch a (deepCopySpecList attrs) = .ok true := by
  intro a attrs
  induction attrs with
  | nil => intro hm; cases hm
  | cons b bs ih =>
      intro hm hna hall
      rw [deepCopySpecList, attrFindMatch]
      obtain ⟨hnb, hkb⟩ := hall b (List.mem_cons_self b bs)
      have hspecb_name : (deepCopySpec b).name? = b.name? := by
        obtain ⟨bk, bn, bv, bnss, batt, bch⟩ := b
        rw [deepCopySpec]
        by_cases hbk : bk = XMLKind.element
        · rw [if_pos hbk]
          rfl
        · rw [if_neg hbk]
          rfl
      have hspecb_value : (deepCopySpec b).value = b.value := by
        obtain ⟨bk, bn, bv, bnss, batt, bch⟩ := b
        rw [deepCopySpec]
        rw [if_neg (by simpa [XML.kind] using hkb)]
        rfl
      obtain ⟨obq, hobq⟩ := Option.isSome_iff_exists.mp hnb
      rw [hspecb_name]
      simp only [hobq]
      rcases List.mem_cons.mp hm with rfl | hmbs
      · simp only [hobq, hspecb_value]
        simp [equalsQ_refl]
      · split
        · rfl
        · exact ih hmbs hna (fun x hx => hall x (List.mem_cons_of_mem _ hx))

theorem attrsAllMatch_of_each : ∀ (as' others : List XML),
    (∀ a ∈ as', attrFindMatch a others = .ok true) →
    attrsAllMatch as' others = .ok true := by
  intro as' others
  induction as' with
  | nil => intro _; rfl
  | cons a t ih =>
      intro h
      rw [attrsAllMatch, h a (List.mem_cons_self a t)]
      show attrsAllMatch t others = .ok true
      exact ih (fun x hx => h x (List.mem_cons_of_mem _ hx))

theorem deepEqualsSpec_all (st : Settings) : ∀ n : Nat,
    (∀ t, xmlSize t ≤ n → wfC2 t = true →
      deepEqualsX st t (deepCopySpec t) = .ok true) ∧
    (∀ ts, xmlSizeList ts ≤ n → wfC2List ts = true →
      childrenEqualsX st ts (deepCopySpecList ts) = .ok true) := by
  intro n
  induction n using Nat.strong_induction_on with
  | _ n IH =>
    have hDE : ∀ t, xmlSize t ≤ n → wfC2 t = true →
        deepEqualsX st t (deepCopySpec t) = .ok true := by
      intro t hsz hwf
      obtain ⟨k, nm, v, nss, attrs, children⟩ := t
      rw [wfC2] at hwf
      rw [deepCopySpec]
      by_cases hk : k = XMLKind.element
      · rw [if_pos hk] at hwf ⊢
        subst hk
        simp only [Bool.and_eq_true] at hwf
        obtain ⟨⟨⟨hnss, hnamed⟩, hwfa⟩, hwfc⟩ := hwf
        rw [deepEqualsX]
        rw [if_neg (by simp [XML.kind])]
        rw [if_neg (by simp [XML.name?, namesMatch_refl])]
        rw [if_neg (by simp)]
        rw [if_neg (by simp [XML.attrs, deepCopySpecList_length])]
        rw [if_neg (by simp [XML.children, deepCopySpecList_length])]
        have hnamed' : ∀ a ∈ attrs, a.name?.isSome = true ∧ a.kind ≠ XMLKind.element := by
          intro a ha
          have := List.all_eq_true.mp hnamed a ha
          simp only [Bool.and_eq_true, bne_iff_ne] at this
          exact this
        have hAM : attrsAllMatch attrs (deepCopySpecList attrs) = .ok true :=
          attrsAllMatch_of_each attrs (deepCopySpecList attrs)
            (fun a ha => attrFindMatch_spec a attrs ha (hnamed' a ha).1 hnamed')
        simp only [XML.attrs, XML.children]
        rw [hAM]
        show childrenEqualsX st children (deepCopySpecList children) = .ok true
        have hm : xmlSizeList children < n := by
          rw [xmlSize] at hsz
          omega
        exact (IH (xmlSizeList children) hm).2 children le_rfl hwfc
      · rw [if_neg hk] at hwf ⊢
        rw [deepEqualsX]
        rw [if_neg (by simp [XML.kind])]
        rw [if_neg (by simp [XML.name?, namesMatch_refl])]
        rw [if_pos hk]
        simp [XML.value]
    refine ⟨hDE, ?_⟩
    intro ts
    induction ts with
    | nil => intro _ _; simp [deepCopySpecList, childrenEqualsX]
    | cons c cs ihl =>
        intro hsz hwf
        rw [xmlSizeList] at hsz
        rw [wfC2List, Bool.and_eq_true] at hwf
        obtain ⟨hwfc, hwfcs⟩ := hwf
        have hszc : xmlSize c ≤ n := by
          have hpos : 0 < xmlSize c := by
            obtain ⟨ck, cn, cv, cnss, cattrs, cchildren⟩ := c
            rw [xmlSize]
            omega
          omega
        have hxe : xmlEquals st c (deepCopySpec c) = .ok true := by
          obtain ⟨ck, cn, cv, cnss, cattrs, cchildren⟩ := c
          rw [xmlEquals]
          cases ck with
          | element =>
              have hspec : deepCopySpec (XML.mk XMLKind.element cn cv cnss cattrs cchildren) =
                  XML.mk XMLKind.element cn "" (List.map nsNorm cnss)
                    (deepCopySpecList cattrs) (deepCopySpecList cchildren) := by
                rw [deepCopySpec, if_pos rfl]
              rw [hspec]
              rw [if_neg (by simp [XML.kind])]
              rw [← hspec]
              exact hDE (XML.mk XMLKind.element cn cv cnss cattrs cchildren) hszc hwfc
          | text =>
              have hspec : deepCopySpec (XML.mk XMLKind.text cn cv cnss cattrs cchildren) =
                  XML.mk XMLKind.text cn cv [] [] [] := by
                rw [deepCopySpec, if_neg (by decide)]
              rw [hspec]
              rw [if_pos (by simp [XML.kind, hasSimpleContent])]
              simp only [toStringX]
              show Except.ok (cv == cv) = Except.ok true
              rw [beq_self_eq_true]
          | «attribute» =>
              have hspec : deepCopySpec (XML.mk XMLKind.attribute cn cv cnss cattrs cchildren) =
                  XML.mk XMLKind.attribute cn cv [] [] [] := by
                rw [deepCopySpec, if_neg (by decide)]
              rw [hspec]
              rw [if_pos (by simp [XML.kind, hasSimpleContent])]
              simp only [toStringX]
              show Except.ok (cv == cv) = Except.ok true
              rw [beq_self_eq_true]
          | comment =>
              have hspec : deepCopySpec (XML.mk XMLKind.comment cn cv cnss cattrs cchildren) =
                  XML.mk XMLKind.comment cn cv [] [] [] := by
                rw [deepCopySpec, if_neg (by decide)]
              rw [hspec]
              rw [if_neg (by simp [XML.kind, hasSimpleContent])]
              rw [deepEqualsX]
              rw [if_neg (by simp [XML.kind])]
              rw [if_neg (by simp [XML.name?, namesMatch_refl])]
              rw [if_pos (by decide)]
              simp [XML.value]
          | processingInstruction =>
              have hspec : deepCopySpec (XML.mk XMLKind.processingInstruction cn cv cnss cattrs cchildren) =
                  XML.mk XMLKind.processingInstruction cn cv [] [] [] := by
                rw [deepCopySpec, if_neg (by decide)]
              rw [hspec]
              rw [if_neg (by simp [XML.kind, hasSimpleContent])]
              rw [deepEqualsX]
              rw [if_neg (by simp [XML.kind])]
              rw [if_neg (by simp [XML.name?, namesMatch_refl])]
              rw [if_pos (by decide)]
              simp [XML.value]
        rw [deepCopySpecList, childrenEqualsX, hxe]
        show childrenEqualsX st cs (deepCopySpecList cs) = .ok true
        exact ihl (by omega) hwfcs

theorem readTreeList_nil (sto : Store) (fuel : Nat) :
    readTreeList sto fuel [] = some [] := by
  cases fuel <;> rfl

theorem deepCopyN_correct : ∀ fuel : Nat,
    (∀ sto i t, readTree sto fuel i = some t → wfC2 t = true →
      ∃ sto' c, deepCopyN sto fuel i = .ok (sto', c) ∧
        sto.length ≤ c ∧ c < sto'.length ∧
        (∀ j, j < sto.length → sto'.get? j = sto.get? j) ∧
        (∃ rc, sto'.get? c = some rc ∧ rc.parent? = none) ∧
        readTree sto' fuel c = some (deepCopySpec t)) ∧
    (∀ sto ids ts, readTreeList sto fuel ids = some ts → wfC2List ts = true →
      ∃ sto' cs, deepCopyListN sto fuel ids = .ok (sto', cs) ∧
        sto.length ≤ sto'.length ∧
        (∀ c ∈ cs, sto.length ≤ c ∧ c < sto'.length) ∧
        (∀ j, j < sto.length → sto'.get? j = sto.get? j) ∧
        readTreeList sto' fuel cs = some (deepCopySpecList ts)) := by
  intro fuel
  induction fuel with
  | zero =>
      constructor
      · intro sto i t h _
        simp [readTree] at h
      · intro sto ids ts h hwf
        cases ids with
        | nil =>
            obtain rfl : [] = ts := Option.some.inj h
            refine ⟨sto, [], rfl, le_rfl, ?_, fun j hj => rfl, ?_⟩
            · intro c hc; cases hc
            · rw [deepCopySpecList]; rfl
        | cons i rest => simp [readTreeList] at h
  | succ fuel IH =>
      obtain ⟨IHt, IHl⟩ := IH
      constructor
      · intro sto i t hrt hwf
        rw [readTree] at hrt
        cases hg : sto.get? i with
        | none => rw [hg] at hrt; cases hrt
        | some r =>
            rw [hg] at hrt
            have hrt' : (match readTreeList sto fuel r.attrs,
                readTreeList sto fuel r.children with
              | some as', some cs => some (XML.mk r.kind r.name? r.value r.nss as' cs)
              | _, _ => none) = some t := hrt
            cases ha : readTreeList sto fuel r.attrs with
            | none => rw [ha] at hrt'; cases hrt'
            | some attrTs =>
                rw [ha] at hrt'
                cases hc : readTreeList sto fuel r.children with
                | none => rw [hc] at hrt'; cases hrt'
                | some childTs =>
                    rw [hc] at hrt'
                    obtain rfl : XML.mk r.kind r.name? r.value r.nss attrTs childTs = t :=
                      Option.some.inj hrt'
                    rw [wfC2] at hwf
                    by_cases hk : r.kind = XMLKind.element
                    · rw [if_pos hk] at hwf
                      simp only [Bool.and_eq_true] at hwf
                      obtain ⟨⟨⟨hnss, _hnamed⟩, hwfa⟩, hwfc⟩ := hwf
                      have hcn : copyNss r.nss = .ok (r.nss.map nsNorm) :=
                        copyNss_spec (fun ns hns => List.all_eq_true.mp hnss ns hns)
                      obtain ⟨sto1, aids, hdl1, hlen1, hbnd1, hpres1, hreadA1⟩ :=
                        IHl sto r.attrs attrTs ha hwfa
                      have hle01 : storeLe sto sto1 := storeLe_of_preserve hpres1
                      have hc1 : readTreeList sto1 fuel r.children = some childTs :=
                        (readTree_mono_all fuel sto sto1 hle01).2 r.children childTs hc
                      obtain ⟨sto2, cids, hdl2, hlen2, hbnd2, hpres2, hreadC2⟩ :=
                        IHl sto1 r.children childTs hc1 hwfc
                      refine ⟨patchParents (patchParents sto2 aids sto2.length) cids
                          sto2.length ++
                          [⟨XMLKind.element, r.name?, "", none, r.nss.map nsNorm,
                            aids, cids⟩],
                        sto2.length, ?_, ?_, ?_, ?_, ?_, ?_⟩
                      · have hg' : sto[i]? = some r := by
                          rw [← List.get?_eq_getElem?]
                          exact hg
                        simp [deepCopyN, hg', hk, hcn, hdl1, hdl2]
                      · omega
                      · simp only [List.length_append, patchParents_length,
                          List.length_singleton]
                        omega
                      · intro j hj
                        rw [List.get?_append (by
                          simp only [patchParents_length]
                          omega)]
                        rw [patchParents_get_ne (fun a hac => by
                          have := hbnd2 a hac
                          omega)]
                        rw [patchParents_get_ne (fun a hac => by
                          have := hbnd1 a hac
                          omega)]
                        rw [hpres2 j (by omega), hpres1 j hj]
                      · refine ⟨⟨XMLKind.element, r.name?, "", none, r.nss.map nsNorm,
                          aids, cids⟩, ?_, rfl⟩
                        have hl3 : (patchParents (patchParents sto2 aids sto2.length)
                            cids sto2.length).length = sto2.length := by
                          rw [patchParents_length, patchParents_length]
                        nth_rewrite 3 [← hl3]
                        exact List.get?_concat_length _ _
                      · have hl3 : (patchParents (patchParents sto2 aids sto2.length)
                            cids sto2.length).length = sto2.length := by
                          rw [patchParents_length, patchParents_length]
                        have hgF : (patchParents (patchParents sto2 aids sto2.length)
                            cids sto2.length ++
                            [(⟨XMLKind.element, r.name?, "", none, r.nss.map nsNorm,
                              aids, cids⟩ : NodeRec)]).get? sto2.length =
                            some (⟨XMLKind.element, r.name?, "", none,
                              r.nss.map nsNorm, aids, cids⟩ : NodeRec) := by
                          nth_rewrite 3 [← hl3]
                          exact List.get?_concat_length _ _
                        have hleF2 : storeLe sto2 (patchParents (patchParents sto2
                            aids sto2.length) cids sto2.length ++
                            [⟨XMLKind.element, r.name?, "", none, r.nss.map nsNorm,
                              aids, cids⟩]) :=
                          storeLe_trans (storeLe_patchParents _ _ _)
                            (storeLe_trans (storeLe_patchParents _ _ _)
                              (storeLe_append _ _))
                        have hleF1 : storeLe sto1 (patchParents (patchParents sto2
                            aids sto2.length) cids sto2.length ++
                            [⟨XMLKind.element, r.name?, "", none, r.nss.map nsNorm,
                              aids, cids⟩]) :=
                          storeLe_trans (storeLe_of_preserve hpres2) hleF2
                        have hreadAF := (readTree_mono_all fuel sto1 _ hleF1).2
                          aids (deepCopySpecList attrTs) hreadA1
                        have hreadCF := (readTree_mono_all fuel sto2 _ hleF2).2
                          cids (deepCopySpecList childTs) hreadC2
                        rw [readTree, hgF]
                        show (match readTreeList (patchParents (patchParents sto2
                            aids sto2.length) cids sto2.length ++
                            [⟨XMLKind.element, r.name?, "", none, r.nss.map nsNorm,
                              aids, cids⟩]) fuel aids,
                          readTreeList (patchParents (patchParents sto2
                            aids sto2.length) cids sto2.length ++
                            [⟨XMLKind.element, r.name?, "", none, r.nss.map nsNorm,
                              aids, cids⟩]) fuel cids with
                          | some as', some cs => some (XML.mk XMLKind.element r.name?
                              "" (r.nss.map nsNorm) as' cs)
                          | _, _ => none) =
                          some (deepCopySpec (XML.mk r.kind r.name? r.value r.nss
                            attrTs childTs))
                        rw [hreadAF, hreadCF, deepCopySpec, if_pos hk]
                    · rw [if_neg hk] at hwf
                      refine ⟨sto ++ [⟨r.kind, r.name?, r.value, none, [], [], []⟩],
                        sto.length, ?_, le_rfl, ?_, ?_, ?_, ?_⟩
                      · have hg' : sto[i]? = some r := by
                          rw [← List.get?_eq_getElem?]
                          exact hg
                        simp [deepCopyN, hg', hk]
                      · simp
                      · intro j hj
                        exact List.get?_append hj
                      · exact ⟨⟨r.kind, r.name?, r.value, none, [], [], []⟩,
                          List.get?_concat_length _ _, rfl⟩
                      · rw [readTree, List.get?_concat_length]
                        show (match readTreeList (sto ++ [⟨r.kind, r.name?, r.value,
                            none, [], [], []⟩]) fuel ([] : List Nat),
                          readTreeList (sto ++ [⟨r.kind, r.name?, r.value,
                            none, [], [], []⟩]) fuel ([] : List Nat) with
                          | some as', some cs => some (XML.mk r.kind r.name? r.value
                              [] as' cs)
                          | _, _ => none) =
                          some (deepCopySpec (XML.mk r.kind r.name? r.value r.nss
                            attrTs childTs))
                        rw [readTreeList_nil, deepCopySpec, if_neg hk]
      · intro sto ids ts h hwf
        cases ids with
        | nil =>
            obtain rfl : [] = ts := Option.some.inj h
            refine ⟨sto, [], rfl, le_rfl, ?_, fun j hj => rfl, ?_⟩
            · intro c hc; cases hc
            · rw [deepCopySpecList]; rfl
        | cons i rest =>
            rw [readTreeList] at h
            cases hx : readTree sto fuel i with
            | none => rw [hx] at h; cases h
            | some tx =>
                rw [hx] at h
                cases hr : readTreeList sto fuel rest with
                | none => rw [hr] at h; cases h
                | some txs =>
                    rw [hr] at h
                    obtain rfl : tx :: txs = ts := Option.some.inj h
                    rw [wfC2List, Bool.and_eq_true] at hwf
                    obtain ⟨hwf1, hwfs⟩ := hwf
                    obtain ⟨stoA, cA, hdcA, hcA1, hcA2, hpresA, _hparA, hreadA⟩ :=
                      IHt sto i tx hx hwf1
                    have hrA : readTreeList stoA fuel rest = some txs :=
                      (readTree_mono_all fuel sto stoA
                        (storeLe_of_preserve hpresA)).2 rest txs hr
                    obtain ⟨stoB, cs, hdcB, hlenB, hbndB, hpresB, hreadB⟩ :=
                      IHl stoA rest txs hrA hwfs
                    have hreadAB : readTree stoB fuel cA = some (deepCopySpec tx) :=
                      (readTree_mono_all fuel stoA stoB
                        (storeLe_of_preserve hpresB)).1 cA (deepCopySpec tx) hreadA
                    refine ⟨stoB, cA :: cs, ?_, ?_, ?_, ?_, ?_⟩
                    · simp [deepCopyListN, hdcA, hdcB]
                    · omega
                    · intro ce hce
                      rcases List.mem_cons.mp hce with rfl | hmem
                      · omega
                      · have := hbndB ce hmem
                        omega
                    · intro j hj
                      rw [hpresB j (by omega), hpresA j hj]
                    · rw [readTreeList, hreadAB, hreadB, deepCopySpecList]

/-- Claim C2, corrected.  The full no-shared-mutable-substructure claim is
refuted (`C2_shared_name_counterexample`): `clone._name = this._name` shares
the mutable `ASQName` object, and `setName` on a processing-instruction copy
reaches `setUri`, mutating the original's name in place.  What holds is
record-level independence: on a readable, well-formed node, `deepCopy`
succeeds and returns a clone allocated entirely outside the original store,
whose root has no parent, whose tree value is the deep-copy image of the
original — and therefore `deepEquals` to the original — while running the
copy leaves the original's records untouched; and mutating any node record
of the copy (any id outside the original store) leaves the original's tree
value unchanged. -/
theorem C2_deepCopy (st : Settings) (sto : Store) (fuel x : Nat) (t : XML)
    (hrt : readTree sto fuel x = some t) (hwf : wfC2 t = true) :
    ∃ sto' c, deepCopyN sto fuel x = .ok (sto', c) ∧
      sto.length ≤ c ∧
      (∃ rc, sto'.get? c = some rc ∧ rc.parent? = none) ∧
      readTree sto' fuel c = some (deepCopySpec t) ∧
      deepEqualsX st t (deepCopySpec t) = .ok true ∧
      readTree sto' fuel x = some t ∧
      (∀ j r', sto.length ≤ j → readTree (setN sto' j r') fuel x = some t) := by
  obtain ⟨sto', c, hdc, hc1, hc2, hpres, hpar, hread⟩ :=
    (deepCopyN_correct fuel).1 sto x t hrt hwf
  have hle : storeLe sto sto' := storeLe_of_preserve hpres
  refine ⟨sto', c, hdc, hc1, hpar, hread,
    (deepEqualsSpec_all st (xmlSize t)).1 t le_rfl hwf,
    (readTree_mono_all fuel sto sto' hle).1 x t hrt, ?_⟩
  intro j r' hj
  have hle' : storeLe sto (setN sto' j r') := by
    apply storeLe_of_preserve
    intro jj hjj
    rw [setN, List.get?_set_ne _ _ (by omega)]
    exact hpres jj hjj
  exact (readTree_mono_all fuel sto _ hle').1 x t hrt

def stW : Store :=
  [⟨.element, some ⟨some ⟨some "", ""⟩, "a", false⟩, "",
     none, [⟨some "p", "urn:u"⟩], [1], [2]⟩,
   ⟨.attribute, some ⟨some ⟨some "", ""⟩, "x", true⟩, "1", some 0, [], [], []⟩,
   ⟨.text, none, "hi", some 0, [], [], []⟩]

def tW : XML :=
  .mk .element (some ⟨some ⟨some "", ""⟩, "a", false⟩) "" [⟨some "p", "urn:u"⟩]
    [.mk .attribute (some ⟨some ⟨some "", ""⟩, "x", true⟩) "1" [] [] []]
    [.mk .text none "hi" [] [] []]

/-- Witness: a concrete element with one attribute, one text child and one
in-scope namespace. -/
theorem C2_deepCopy_witness :
    readTree stW 3 0 = some tW ∧ wfC2 tW = true ∧
    (∃ sto' c, deepCopyN stW 3 0 = .ok (sto', c) ∧
      stW.length ≤ c ∧
      (∃ rc, sto'.get? c = some rc ∧ rc.parent? = none) ∧
      readTree sto' 3 c = some (deepCopySpec tW) ∧
      deepEqualsX defaultSettings tW (deepCopySpec tW) = .ok true ∧
      readTree sto' 3 0 = some tW ∧
      (∀ j r', stW.length ≤ j → readTree (setN sto' j r') 3 0 = some tW)) := by
  have hwf : wfC2 tW = true := by
    simp [tW, wfC2, wfC2List, nsConstructible, XML.kind, XML.name?]
  exact ⟨rfl, hwf, C2_deepCopy defaultSettings stW 3 0 tW rfl hwf⟩

/-! #### The shared name object

`_deepCopy` copies the name by reference: `clone._name = this._name`
(xml.ts:1560).  `ASQName` objects are mutable — `setUri` (xml.ts:1183-1187)
writes `this._name.uri` through to `namespaces[0].uri` in place — so the
copy and the original share mutable substructure after all.  The write is
reachable on a scalar copy: `setName` on a processing instruction calls
`name.setUri('')` (xml.ts:2106 area), and the one-argument `ASQName`
constructor returns its `ASQName` argument *itself* (xml.ts:1105-1109), so
the shared cell is the one mutated.  To exhibit this the model below splits
the heap: `QStore` holds the mutable name cells and nodes refer to them by
id (`nameId`), exactly mirroring the reference the records of `Store` hide
by holding names inline. -/

/-- A node of the name-aliasing model: as `NodeRec` for scalars, but the
name is a *reference* (an index into a `QStore`) rather than a value. -/
structure NmNode where
  kind : XMLKind
  nameId : Option Nat
  value : String
  parent? : Option Nat
deriving DecidableEq, Repr

/-- The heap of mutable `ASQName` cells. -/
abbrev QStore := List ASQName

/-- The node heap of the name-aliasing model. -/
abbrev NmStore := List NmNode

/-- `ASQName.setUri` (xml.ts:1183-1187) on the cell `qid`: writes
`namespaces[0].uri` of the name object in place; a name whose namespace
slot is null makes the write throw (the push lands at index 1 and
`namespaces[0]` stays null). -/
def qStoreSetUri (qsto : QStore) (qid : Nat) (uri : String) : Except Err QStore :=
  match qsto.get? qid with
  | none => .error .typeError
  | some q =>
      match q.ns with
      | some nsp => .ok (qsto.set qid { q with ns := some { nsp with uri := uri } })
      | none => .error .typeError

/-- `_deepCopy` restricted to a scalar node in the name-aliasing model: the
clone is a fresh record whose `nameId` is **the same cell id** as the
original's — the direct image of `clone._name = this._name`. -/
def deepCopyScalarShared (nsto : NmStore) (x : Nat) : Except Err (NmStore × Nat) :=
  match nsto.get? x with
  | none => .error .typeError
  | some r =>
      if r.kind = .element then .error .typeError
      else .ok (nsto ++ [⟨r.kind, r.nameId, r.value, none⟩], nsto.length)

/-- `ASXML.name()` (xml.ts:1887-1892) as a reference: returns `this._name`
itself, i.e. the cell id. -/
def xmlNameRef (nsto : NmStore) (x : Nat) : Except Err (Option Nat) :=
  match nsto.get? x with
  | none => .error .typeError
  | some r => .ok r.nameId

/-- `ASXML.setName` on a scalar receiver with an `ASQName` argument
(xml.ts:2094-2114): text and comment nodes return with no effect; on a
processing instruction the one-argument `ASQName` constructor returns the
argument itself when its uri is non-null — the receiver then *aliases* the
caller's cell and `setUri('')` mutates it in place (when the uri is null a
fresh name is built from the local name first, and the mutation hits the
fresh cell).  Element and attribute receivers continue into resolution and
`addInScopeNamespace` machinery outside this aliasing model, so they are
mapped to an error here. -/
def xmlSetNamePIShared (st : Settings) (qsto : QStore) (nsto : NmStore)
    (x qid : Nat) : Except Err (QStore × NmStore) :=
  match nsto.get? x with
  | none => .error .typeError
  | some r =>
      if r.kind = .text ∨ r.kind = .comment then .ok (qsto, nsto)
      else if r.kind = .processingInstruction then
        match qsto.get? qid with
        | none => .error .typeError
        | some q =>
            match q.ns with
            | none =>
                let q' := newASQName st none q.localName false
                match (match q'.ns with
                       | some nsp => Except.ok { q' with ns := some { nsp with uri := "" } }
                       | none => (Except.error Err.typeError : Except Err ASQName)) with
                | .error e => .error e
                | .ok q'' =>
                    .ok (qsto ++ [q''], nsto.set x { r with nameId := some qsto.length })
            | some _ =>
                match qStoreSetUri qsto qid "" with
                | .error e => .error e
                | .ok qsto1 => .ok (qsto1, nsto.set x { r with nameId := some qid })
      else .error .typeError

/-- Name heap for the counterexample: one cell, uri `urn:d`. -/
def qsC2 : QStore := [⟨some ⟨some "", "urn:d"⟩, "app", false⟩]

/-- The same heap after `setUri('')` on cell 0: the uri is wiped in place. -/
def qsC2' : QStore := [⟨some ⟨some "", ""⟩, "app", false⟩]

/-- One processing instruction whose name is cell 0. -/
def nmC2 : NmStore := [⟨.processingInstruction, some 0, "data", none⟩]

/-- The node heap after deep-copying node 0: the copy (node 1) holds **the
same** name cell id 0. -/
def nmC2' : NmStore :=
  [⟨.processingInstruction, some 0, "data", none⟩,
   ⟨.processingInstruction, some 0, "data", none⟩]

/-- Counterexample to the independence clause of claim C2: deep-copying a
processing instruction shares the name cell (`name()` of the copy and of
the original return the same id), and calling `setName(copy.name())` on the
copy drives `setUri('')` through the shared cell, changing the uri the
*original's* name reports from `urn:d` to the empty string. -/
theorem C2_shared_name_counterexample :
    deepCopyScalarShared nmC2 0 = .ok (nmC2', 1) ∧
    xmlNameRef nmC2' 1 = .ok (some 0) ∧
    xmlNameRef nmC2' 0 = .ok (some 0) ∧
    (qsC2.get? 0).map ASQName.uri = some (some "urn:d") ∧
    xmlSetNamePIShared defaultSettings qsC2 nmC2' 1 0 = .ok (qsC2', nmC2') ∧
    (qsC2'.get? 0).map ASQName.uri = some (some "") := by
  exact ⟨rfl, rfl, rfl, rfl, rfl, rfl⟩

end SXML
